import Mathlib

/-!
The event dispatcher of `cmd/dispatcher/dispatcher.go` and the amount
conversion of `cmd/tools/helper.go`

A shallow embedding of the publish/subscribe channel, of the channel registry
and of `ConvertStringToAmount`, followed by the properties proved about them.
The definitions of both packages come first (namespaces `Dispatcher` and
`Tools`), the theorems after them.

Modelling conventions.

* A Go `map[string]V` is an association list with pairwise distinct keys
  (`AList`); the nil map is `none`.  The order of the entries stands for the
  order in which one `range` loop visits the map, which Go leaves unspecified:
  the properties below are stated through membership, counting and
  permutations, so they hold whatever that order is.
* Strings are sequences of characters (`String.data`); for well-formed UTF-8
  text the byte-wise prefix test of Go coincides with the character-wise one.
* `Callback` values are opaque: the embedding is generic in the type `κ` of
  callbacks and in the type `π` of payloads (`interface{}`).
* A call is one atomic transition.  `sync.Mutex` is a flag; `Lock` on a held
  mutex does not return (`Exit.blocked`), which in a sequential run means that
  the call never completes.
* `Channel.Publish` lists the `go` statements of a call.  What the started
  goroutines do to the program is the subject of `Channel.publishRun`, which
  runs them concurrently with the call under an arbitrary schedule; a panic
  that leaves a callback ends the program, as nothing recovers it.
* `*Channel` pointers are addresses into a heap of channels; a fresh
  allocation takes the next free address.
-/

namespace Dispatcher

/-- A non-nil Go `map[string]V`. -/
abbrev GoMap (V : Type) := AList (fun _ : String => V)

/-- Go's `strings.HasPrefix(s, pre)`, as the standard library defines it:
`len(s) >= len(pre) && s[0:len(pre)] == pre`. -/
def HasPrefix (s pre : String) : Bool :=
  decide (s.data.length ≥ pre.data.length) && decide (s.data.take pre.data.length = pre.data)

/-- How a call ends: it returns, it panics, or it waits forever on a mutex. -/
inductive Exit where
  | returned
  | panicked (msg : String)
  | blocked
  deriving DecidableEq, Repr

/-- `type Channel struct { subscribers map[string][]Callback; mutex sync.Mutex }`.
`subscribers = none` is the nil map, `mutex = true` a held mutex. -/
structure Channel (κ : Type) where
  subscribers : Option (GoMap (List κ))
  mutex : Bool

/-- The zero value `Channel{}`: nil map, free mutex. -/
def Channel.zero (κ : Type) : Channel κ := ⟨none, false⟩

/-- A goroutine started by `go c(eventname, payload)`: the function value and
its arguments, evaluated by the `go` statement. -/
structure Goroutine (κ π : Type) where
  fn : κ
  eventname : String
  payload : π
  deriving DecidableEq, Repr

/-- The two-valued map read `v, ok := m[k]`; `none` is `ok = false`.
Reading a nil map is allowed and finds nothing. -/
def mapIndex {V : Type} (m : Option (GoMap V)) (k : String) : Option V :=
  match m with
  | none => none
  | some t => t.lookup k

/-- The map write `m[k] = v`; `none` is the run-time panic
"assignment to entry in nil map". -/
def mapAssign {V : Type} (m : Option (GoMap V)) (k : String) (v : V) : Option (GoMap V) :=
  match m with
  | none => none
  | some t => some (t.insert k v)

/-- The entries visited by `for k, v := range m`; a nil map has none. -/
def mapRange {V : Type} (m : Option (GoMap V)) : List (String × V) :=
  match m with
  | none => []
  | some t => t.entries.map (fun kv => (kv.1, kv.2))

/-- `c.mutex.Lock()`: `none` when the mutex is held (the caller waits). -/
def Channel.Lock {κ : Type} (c : Channel κ) : Option (Channel κ) :=
  if c.mutex then none else some { c with mutex := true }

/-- `c.mutex.Unlock()`, run by the `defer` of a call that holds the mutex. -/
def Channel.Unlock {κ : Type} (c : Channel κ) : Channel κ :=
  { c with mutex := false }

/-- `func (c *Channel) Init()`: `c.subscribers = make(map[string][]Callback)`. -/
def Channel.Init {κ : Type} (c : Channel κ) : Channel κ :=
  { c with subscribers := some ∅ }

/-- The outcome of `Publish`: the channel afterwards, the goroutines started,
in the order of the `go` statements, and how the call ended. -/
structure PublishResult (κ π : Type) where
  channel : Channel κ
  spawned : List (Goroutine κ π)
  exit : Exit

/-- The inner loop of `Publish`: `for _, c := range sub { go c(eventname, payload) }`. -/
def spawnAll {κ π : Type} (eventname : String) (payload : π)
    (acc : List (Goroutine κ π)) (sub : List κ) : List (Goroutine κ π) :=
  sub.foldl (fun started cb => started ++ [⟨cb, eventname, payload⟩]) acc

/-- The outer loop of `Publish`:
`for k, sub := range c.subscribers { if strings.HasPrefix(eventname, k) { ... } }`. -/
def publishLoop {κ π : Type} (eventname : String) (payload : π)
    (entries : List (String × List κ)) : List (Goroutine κ π) :=
  entries.foldl
    (fun started kv =>
      if HasPrefix eventname kv.1 then spawnAll eventname payload started kv.2 else started)
    []

/-- `func (c *Channel) Publish(eventname string, payload interface{})`. -/
def Channel.Publish {κ π : Type} (c : Channel κ) (eventname : String) (payload : π) :
    PublishResult κ π :=
  match c.Lock with
  | none => ⟨c, [], Exit.blocked⟩
  | some held =>
    let started := publishLoop eventname payload (mapRange held.subscribers)
    ⟨held.Unlock, started, Exit.returned⟩

/-- The outcome of `Subscribe`: the channel afterwards and how the call ended. -/
structure SubscribeResult (κ : Type) where
  channel : Channel κ
  exit : Exit

/-- `func (c *Channel) Subscribe(eventname string, call Callback)`. -/
def Channel.Subscribe {κ : Type} (c : Channel κ) (eventname : String) (call : κ) :
    SubscribeResult κ :=
  match c.Lock with
  | none => ⟨c, Exit.blocked⟩
  | some held =>
    let stored :=
      match mapIndex held.subscribers eventname with
      | none => mapAssign held.subscribers eventname [call]
      | some subs => mapAssign held.subscribers eventname (subs ++ [call])
    match stored with
    | none => ⟨held.Unlock, Exit.panicked "assignment to entry in nil map"⟩
    | some m => ⟨{ held with subscribers := some m }.Unlock, Exit.returned⟩

/-- The address of a channel on the heap (a `*Channel`). -/
abbrev Addr := Nat

/-- The package state: the channels allocated so far and the global
`var Channels map[string]*Channel` (nil until the first named channel). -/
structure World (κ : Type) where
  heap : List (Channel κ)
  Channels : Option (GoMap Addr)

/-- The package state at program start: nothing allocated, `Channels` nil. -/
def World.initial (κ : Type) : World κ := ⟨[], none⟩

/-- The outcome of `CreateChannel`: the package state afterwards and the two
results `(*Channel, error)`, each `none` for `nil`. -/
structure CreateResult (κ : Type) where
  world : World κ
  channel : Option Addr
  err : Option String

/-- `func CreateChannel(name string) (*Channel, error)`. -/
def CreateChannel {κ : Type} (w : World κ) (name : String) : CreateResult κ :=
  let c : Channel κ := (Channel.zero κ).Init
  let a : Addr := w.heap.length
  let w1 : World κ := { w with heap := w.heap ++ [c] }
  if name.data.length > 0 then
    let w2 : World κ :=
      match w1.Channels with
      | none => { w1 with Channels := some ∅ }
      | some _ => w1
    match mapIndex w2.Channels name with
    | some _ => ⟨w2, none, some "Channel already exists"⟩
    | none => ⟨{ w2 with Channels := mapAssign w2.Channels name a }, some a, none⟩
  else
    ⟨w1, some a, none⟩

/-- The lookup by name `ch, ok := Channels[name]`; `none` is `ok = false`. -/
def World.lookup {κ : Type} (w : World κ) (name : String) : Option Addr :=
  mapIndex w.Channels name

/-- The channel a pointer refers to. -/
def World.deref {κ : Type} (w : World κ) (a : Addr) : Option (Channel κ) :=
  w.heap.get? a

/-- The callback list stored under a key; an absent key and the nil map have
the empty list. -/
def Channel.subs {κ : Type} (c : Channel κ) (key : String) : List κ :=
  (mapIndex c.subscribers key).getD []

/-- The registrations a channel holds: one pair of key and callback for every
element of every callback list. -/
def Channel.registrations {κ : Type} (c : Channel κ) : List (String × κ) :=
  (mapRange c.subscribers).flatMap (fun kv => kv.2.map (fun cb => (kv.1, cb)))

/-- The channel of the routing example: a fresh channel with `first` subscribed
under "order" and then `second` under "order.created". -/
def orderChannel {κ : Type} (first second : κ) : Channel κ :=
  (((Channel.zero κ).Init.Subscribe "order" first).channel.Subscribe
    "order.created" second).channel

/-- A run of `Subscribe` calls on one channel, `calls` listing key and callback of
each call in order. -/
def subscribeAll {κ : Type} (c : Channel κ) (calls : List (String × κ)) : Channel κ :=
  calls.foldl (fun ch r => (ch.Subscribe r.1 r.2).channel) c

/-- Every pointer stored in `Channels` refers to an allocated channel (Go has no
dangling pointers). -/
def World.allocated {κ : Type} (w : World κ) : Bool :=
  (mapRange w.Channels).all (fun kv => decide (kv.2 < w.heap.length))

/-- A run of `CreateChannel` calls, `names` listing the argument of each call in
order; the results of the calls are dropped. -/
def createAll {κ : Type} (w : World κ) (names : List String) : World κ :=
  names.foldl (fun v n => (CreateChannel v n).world) w

/-- A call `p.Subscribe(eventname, call)` through the pointer `p = a`: the channel
at `a` is replaced by the one `Subscribe` leaves. -/
def World.Subscribe {κ : Type} (w : World κ) (a : Addr) (eventname : String) (call : κ) :
    World κ :=
  match w.deref a with
  | some ch => { w with heap := w.heap.set a (ch.Subscribe eventname call).channel }
  | none => w

/-- The goroutines started by a call `p.Publish(eventname, payload)` through the
pointer `p = a`. -/
def World.Publish {κ π : Type} (w : World κ) (a : Addr) (eventname : String) (payload : π) :
    Option (List (Goroutine κ π)) :=
  (w.deref a).map (fun ch => (ch.Publish eventname payload).spawned)

/-- The package state after `CreateChannel("x")` at program start and one
`Subscribe("", 5)` on the channel it returned. -/
def busyWorld : World Nat :=
  World.Subscribe (CreateChannel (World.initial Nat) "x").world 0 "" 5

/-- How a call of a callback ends: it returns, or a panic leaves it (a callback that
recovers from its own panic returns). -/
inductive Outcome where
  | returned
  | panicked
  deriving DecidableEq, Repr

/-- The run of a goroutine started by `Publish`.  The `go` statement calls the
callback directly, `go c(eventname, payload)`: the callback is the function of the
goroutine and no deferred call stands around it, so the goroutine ends the way the
callback does.  `behaviour` tells how each callback ends on each event. -/
def Goroutine.run {κ π : Type} (behaviour : κ → String → π → Outcome) (g : Goroutine κ π) :
    Outcome :=
  behaviour g.fn g.eventname g.payload

/-- A behaviour in which callback 1 panics on every event and every other callback
returns. -/
def firstPanics : Nat → String → Nat → Outcome :=
  fun cb _ _ => if cb = 1 then Outcome.panicked else Outcome.returned

/-- One call made on a channel: `Subscribe(key, call)` or
`Publish(eventname, payload)`. -/
inductive Call (κ π : Type) where
  | subscribe (key : String) (call : κ)
  | publish (eventname : String) (payload : π)

/-- How one call on the channel ends. -/
def Channel.exitOf {κ π : Type} (c : Channel κ) : Call κ π → Exit
  | Call.subscribe key call => (c.Subscribe key call).exit
  | Call.publish eventname payload => (c.Publish eventname payload).exit

/-- The channel one call leaves. -/
def Channel.step {κ π : Type} (c : Channel κ) : Call κ π → Channel κ
  | Call.subscribe key call => (c.Subscribe key call).channel
  | Call.publish eventname payload => (c.Publish eventname payload).channel

/-- The channel a run of calls leaves, the calls made one after the other. -/
def Channel.run {κ π : Type} (c : Channel κ) (calls : List (Call κ π)) : Channel κ :=
  calls.foldl Channel.step c

/-- The course of one `Publish` call in the running program, where the goroutines it
starts run concurrently with it: the goroutines started before the call or the program
ended, whether the call returned to the publisher, and whether the program still runs
once every started goroutine has run its callback to the end. -/
structure PublishRun (κ π : Type) where
  started : List (Goroutine κ π)
  returned : Bool
  survived : Bool

/-- The `go` statements of `Publish` interleaved with the goroutines they start.
`todo` lists the `go` statements still to execute, `started` the goroutines started
so far.  The schedule `delay` is free: the goroutine started as number `i` has run
its callback to the end after `delay i` further `go` statements of the publisher
(`0`: before the next statement; beyond the end of the loop: after `Publish` returned).
`fuse = some k` says that a callback already running panics after `k` further
statements.  Nothing recovers that panic, so at `some 0` the program ends on the spot:
no further goroutine is started and `Publish` does not return. -/
def concurrentLoop {κ π : Type} (behaviour : κ → String → π → Outcome) (delay : Nat → Nat) :
    List (Goroutine κ π) → List (Goroutine κ π) → Option Nat → PublishRun κ π
  | [], started, none => ⟨started, true, true⟩
  | [], started, some 0 => ⟨started, false, false⟩
  | [], started, some (_ + 1) => ⟨started, true, false⟩
  | _ :: _, started, some 0 => ⟨started, false, false⟩
  | g :: rest, started, none =>
    concurrentLoop behaviour delay rest (started ++ [g])
      (if g.run behaviour = Outcome.panicked then some (delay started.length) else none)
  | g :: rest, started, some (k + 1) =>
    concurrentLoop behaviour delay rest (started ++ [g])
      (if g.run behaviour = Outcome.panicked then some (min k (delay started.length))
        else some k)

/-- `Publish` in the running program: the call of `Channel.Publish`, its `go`
statements executed one after the other while the goroutines already started run on
their own.  On a held mutex the call waits and starts nothing. -/
def Channel.publishRun {κ π : Type} (behaviour : κ → String → π → Outcome)
    (delay : Nat → Nat) (c : Channel κ) (eventname : String) (payload : π) :
    PublishRun κ π :=
  match c.Lock with
  | none => ⟨[], false, true⟩
  | some held =>
    concurrentLoop behaviour delay (publishLoop eventname payload (mapRange held.subscribers))
      [] none

/-- A fresh channel with callback 1 and then callback 2 subscribed under the empty
key. -/
def pairChannel : Channel Nat :=
  subscribeAll (Channel.zero Nat).Init [("", 1), ("", 2)]

end Dispatcher

namespace Tools

/-! Strings of package `tools` are byte strings: a Go string is the list of its bytes
(`String.data`), each byte written as the character of that code, so that `len`,
indices and slices count list elements.  For ASCII text this is the text itself. -/

/-- A call either returns its results or panics at run time. -/
inductive Outcome (α : Type) where
  | returns (a : α)
  | panics (msg : String)
  deriving DecidableEq, Repr

/-- The two errors of package `strconv`. -/
inductive NumError where
  | ErrSyntax
  | ErrRange
  deriving DecidableEq, Repr

/-- The test `'0' <= c && c <= '9'` of `strconv.ParseUint`. -/
def isDigit (c : Char) : Bool :=
  decide ('0'.toNat ≤ c.toNat) && decide (c.toNat ≤ '9'.toNat)

/-- The digit value `c - '0'`. -/
def digitOf (c : Char) : Nat := c.toNat - '0'.toNat

/-- The largest `uint64`. -/
def maxUint64 : Nat := 2 ^ 64 - 1

/-- The digit loop of `strconv.ParseUint(s, 10, 64)`, `n` being the number read so
far.  A byte that is not a decimal digit is a syntax error; `n >= cutoff` with
`cutoff = maxUint64/10 + 1` (then `n*10` overflows) and an overflow of `n*10 + d`
(which the library detects by the wrap-around `n1 < n`) are range errors, reported
together with the value `maxUint64`. -/
def parseUintLoop : List Char → Nat → Nat × Option NumError
  | [], n => (n, none)
  | c :: rest, n =>
    if isDigit c then
      if n ≥ maxUint64 / 10 + 1 then (maxUint64, some NumError.ErrRange)
      else if n * 10 + digitOf c > maxUint64 then (maxUint64, some NumError.ErrRange)
      else parseUintLoop rest (n * 10 + digitOf c)
    else (0, some NumError.ErrSyntax)

/-- Go's `strconv.ParseUint(s, 10, 64)`: the empty string is a syntax error. -/
def ParseUint (s : List Char) : Nat × Option NumError :=
  if s = [] then (0, some NumError.ErrSyntax) else parseUintLoop s 0

/-- Go's `strconv.ParseInt(s, 10, 64)`: an optional leading `+` or `-`, then
`ParseUint`; a syntax error gives `(0, err)`; a magnitude of `2^63` or more (more
than `2^63` after `-`) gives the nearest `int64` and a range error. -/
def ParseInt (s : List Char) : Int × Option NumError :=
  if s = [] then (0, some NumError.ErrSyntax)
  else
    let neg : Bool := decide (s.head? = some '-')
    let body : List Char := if s.head? = some '+' ∨ s.head? = some '-' then s.tail else s
    let un := ParseUint body
    if un.2 = some NumError.ErrSyntax then (0, some NumError.ErrSyntax)
    else if neg = false ∧ un.1 ≥ 2 ^ 63 then ((2 : Int) ^ 63 - 1, some NumError.ErrRange)
    else if neg = true ∧ un.1 > 2 ^ 63 then (-(2 : Int) ^ 63, some NumError.ErrRange)
    else (if neg then -(un.1 : Int) else (un.1 : Int), none)

/-- The scan behind `strings.ReplaceAll(s, old, "")` for a non-empty `old`: the
occurrences of `old` are found from left to right, each search starting behind the
previous occurrence, and dropped.  `skip` counts the bytes of the current occurrence
still to drop. -/
def replaceScan (old : List Char) : Nat → List Char → List Char
  | _, [] => []
  | skip + 1, _ :: rest => replaceScan old skip rest
  | 0, c :: rest =>
    if old.isPrefixOf (c :: rest) then replaceScan old (old.length - 1) rest
    else c :: replaceScan old 0 rest

/-- Go's `strings.ReplaceAll(s, old, "")`, the only form the package uses.  For an
empty `old` the library returns `s` itself (`old == new`). -/
def ReplaceAll (s old : List Char) : List Char :=
  if old = [] then s else replaceScan old 0 s

/-- The scan behind `strings.LastIndex`: `i` is the index of the first byte of the
rest, `best` the last index found so far at which `sub` occurs. -/
def lastIndexFrom (sub : List Char) : List Char → Nat → Int → Int
  | [], i, best => if sub.isPrefixOf [] then (i : Int) else best
  | c :: rest, i, best =>
    lastIndexFrom sub rest (i + 1) (if sub.isPrefixOf (c :: rest) then (i : Int) else best)

/-- Go's `strings.LastIndex(s, sub)`: the index of the last occurrence of `sub` in
`s`, `-1` when there is none, `len(s)` when `sub` is empty. -/
def LastIndex (s sub : List Char) : Int :=
  lastIndexFrom sub s 0 (-1)

/-- The slice expression `s[0:hi]`; `none` is the run-time panic "slice bounds out
of range", raised unless `0 <= hi <= len(s)`. -/
def sliceTo (s : List Char) (hi : Int) : Option (List Char) :=
  if 0 ≤ hi ∧ hi ≤ (s.length : Int) then some (s.take hi.toNat) else none

/-- `func ConvertStringToAmount(s string, decimalSep string, thousandSep string)
(int64, error)`.  The `fmt.Printf` of the default branch only writes to standard
output and is left out. -/
def ConvertStringToAmount (s decimalSep thousandSep : String) :
    Outcome (Int × Option NumError) :=
  let s1 : List Char := ReplaceAll s.data [' ']
  let s2 : List Char := if thousandSep ≠ "" then ReplaceAll s1 thousandSep.data else s1
  let l : Int := (s2.length : Int)
  let sepPos : Int := LastIndex s2 decimalSep.data
  let s3 : List Char := if sepPos ≠ -1 then ReplaceAll s2 decimalSep.data else s2
  if sepPos = -1 then Outcome.returns (ParseInt (s3 ++ ['0', '0']))
  else if sepPos = l - 1 then Outcome.returns (ParseInt (s3 ++ ['0', '0']))
  else if sepPos = l - 2 then Outcome.returns (ParseInt (s3 ++ ['0']))
  else if sepPos = l - 3 then Outcome.returns (ParseInt s3)
  else
    match sliceTo s3 (sepPos + 2) with
    | none => Outcome.panics "slice bounds out of range"
    | some cut => Outcome.returns (ParseInt cut)

/-- The number a string of decimal digits denotes, read behind the number `n`. -/
def digitsValFrom (n : Nat) (ds : List Char) : Nat :=
  ds.foldl (fun m c => m * 10 + digitOf c) n

/-- The number a string of decimal digits denotes. -/
def digitsVal (ds : List Char) : Nat := digitsValFrom 0 ds

/-- The first two digits of the decimal part `F`, padded on the right with zeros to
two digits. -/
def centDigits (F : List Char) : List Char := (F ++ ['0', '0']).take 2

/-- The amount in cents of `[-]I` or `[-]I d F`: `sign * (100 * I + the two cent
digits of F)`. -/
def amountOf (neg : Bool) (I F : List Char) : Int :=
  (if neg then -1 else 1) * ((100 * digitsVal I + digitsVal (centDigits F) : Nat) : Int)

/-- The sign part of an amount string: `-` or nothing. -/
def signOf (neg : Bool) : List Char := if neg then ['-'] else []

/-- The input once the spaces and then the thousand separator are removed, as the
first two statements of `ConvertStringToAmount` leave it. -/
def cleaned (s thousandSep : String) : List Char :=
  if thousandSep ≠ "" then ReplaceAll (ReplaceAll s.data [' ']) thousandSep.data
  else ReplaceAll s.data [' ']

end Tools

namespace Dispatcher

/-! ## Routing: which callbacks one `Publish` starts -/

theorem HasPrefix_iff (s pre : String) : HasPrefix s pre = true ↔ pre.data <+: s.data := by
  unfold HasPrefix
  rw [List.prefix_iff_eq_take]
  simp only [Bool.and_eq_true, decide_eq_true_eq]
  constructor
  · rintro ⟨_, h⟩
    exact h.symm
  · intro h
    refine ⟨?_, h.symm⟩
    have hlen := congrArg List.length h
    simp only [List.length_take] at hlen
    omega

theorem HasPrefix_empty (s : String) : HasPrefix s "" = true :=
  (HasPrefix_iff s "").2 List.nil_prefix

theorem spawnAll_eq {κ π : Type} (e : String) (x : π) (acc : List (Goroutine κ π))
    (sub : List κ) :
    spawnAll e x acc sub = acc ++ sub.map (fun cb => ⟨cb, e, x⟩) := by
  unfold spawnAll
  induction sub generalizing acc with
  | nil => simp
  | cons cb rest ih => simp [List.foldl_cons, ih]

theorem publishLoop_acc {κ π : Type} (e : String) (x : π) (entries : List (String × List κ))
    (acc : List (Goroutine κ π)) :
    entries.foldl
      (fun started kv =>
        if HasPrefix e kv.1 then spawnAll e x started kv.2 else started) acc
      = acc ++ ((entries.flatMap (fun kv => kv.2.map (fun cb => (kv.1, cb)))).filter
          (fun r => HasPrefix e r.1)).map (fun r => (⟨r.2, e, x⟩ : Goroutine κ π)) := by
  induction entries generalizing acc with
  | nil => simp
  | cons kv rest ih =>
    rw [List.foldl_cons, ih]
    by_cases h : HasPrefix e kv.1 = true
    · simp [h, spawnAll_eq, List.filter_map, Function.comp_def]
    · simp [h, List.filter_map, Function.comp_def]

/-- The nested loops of `Publish` start one goroutine for each registration
whose key passes `strings.HasPrefix`, in the order of the registrations. -/
theorem publishLoop_eq {κ π : Type} (e : String) (x : π) (m : Option (GoMap (List κ)))
    (lk : Bool) :
    publishLoop e x (mapRange m)
      = ((Channel.registrations ⟨m, lk⟩).filter (fun r => HasPrefix e r.1)).map
          (fun r => (⟨r.2, e, x⟩ : Goroutine κ π)) := by
  unfold publishLoop Channel.registrations
  rw [publishLoop_acc]
  simp

theorem Publish_free {κ π : Type} (c : Channel κ) (hfree : c.mutex = false) (e : String)
    (x : π) :
    c.Publish e x =
      ⟨c, ((c.registrations).filter (fun r => HasPrefix e r.1)).map
            (fun r => (⟨r.2, e, x⟩ : Goroutine κ π)), Exit.returned⟩ := by
  obtain ⟨m, lk⟩ := c
  simp only at hfree
  subst hfree
  simp [Channel.Publish, Channel.Lock, Channel.Unlock, publishLoop_eq e x m false]

theorem mem_mapRange {V : Type} (t : GoMap V) (k : String) (v : V) :
    (k, v) ∈ mapRange (some t) ↔ t.lookup k = some v := by
  unfold mapRange
  rw [← Option.mem_def, AList.mem_lookup_iff]
  constructor
  · intro h
    obtain ⟨kv, hkv, heq⟩ := List.mem_map.1 h
    obtain ⟨k', v'⟩ := kv
    simp only [Prod.mk.injEq] at heq
    obtain ⟨rfl, rfl⟩ := heq
    exact hkv
  · intro h
    exact List.mem_map.2 ⟨⟨k, v⟩, h, rfl⟩

/-- A registration is an element of the callback list stored under its key. -/
theorem mem_registrations {κ : Type} (c : Channel κ) (p : String) (cb : κ) :
    (p, cb) ∈ c.registrations ↔ cb ∈ c.subs p := by
  obtain ⟨m, lk⟩ := c
  cases m with
  | none => simp [Channel.registrations, Channel.subs, mapRange, mapIndex]
  | some t =>
    unfold Channel.registrations Channel.subs mapIndex
    simp only [List.mem_flatMap, List.mem_map, Prod.mk.injEq]
    constructor
    · rintro ⟨⟨k, l⟩, hkl, cb', hcb', rfl, rfl⟩
      rw [(mem_mapRange t k l).1 hkl]
      exact hcb'
    · intro h
      cases hl : t.lookup p with
      | none => simp [hl] at h
      | some l =>
        rw [hl] at h
        exact ⟨(p, l), (mem_mapRange t p l).2 hl, cb, h, rfl, rfl⟩

/-- The iteration order of the map does not matter: two maps holding the same entries
in different orders make `Publish` start the same goroutines up to their order. -/
theorem spawned_perm_of_entries_perm {κ π : Type} (t t' : GoMap (List κ))
    (h : List.Perm t.entries t'.entries) (e : String) (x : π) :
    List.Perm (Channel.Publish ⟨some t, false⟩ e x).spawned
      (Channel.Publish ⟨some t', false⟩ e x).spawned := by
  rw [Publish_free _ rfl, Publish_free _ rfl]
  refine List.Perm.map _ (List.Perm.filter _ ?_)
  unfold Channel.registrations mapRange
  exact List.Perm.flatMap_right _ (List.Perm.map _ h)

theorem mem_spawned_iff {κ π : Type} (c : Channel κ) (hfree : c.mutex = false) (e : String)
    (x : π) (g : Goroutine κ π) :
    g ∈ (c.Publish e x).spawned ↔
      ∃ p, g.fn ∈ c.subs p ∧ p.data <+: e.data ∧ g.eventname = e ∧ g.payload = x := by
  rw [Publish_free c hfree]
  simp only [List.mem_map, List.mem_filter]
  constructor
  · rintro ⟨⟨p, cb⟩, ⟨hreg, hpre⟩, rfl⟩
    exact ⟨p, (mem_registrations c p cb).1 hreg, (HasPrefix_iff e p).1 hpre, rfl, rfl⟩
  · rintro ⟨p, hsub, hpre, he, hx⟩
    refine ⟨(p, g.fn), ⟨(mem_registrations c p g.fn).2 hsub, (HasPrefix_iff e p).2 hpre⟩, ?_⟩
    obtain ⟨f, e', x'⟩ := g
    simp only at he hx
    subst he hx
    rfl

/-- C1: on a channel whose mutex is free, `Publish(e, x)` returns, and it starts an
invocation of a callback `cb` with `(e, x)` if and only if `cb` is registered under
some key that is a literal prefix of `e`.  For a callback registered under the one key
`p` this reads: it is invoked iff `p` is a prefix of `e`.  A callback registered under
the empty key is invoked by every `Publish`.  With `first` subscribed under "order" and
`second` under "order.created", `Publish("order.created", x)` invokes both and
`Publish("order.cancelled", x)` invokes `first` only. -/
theorem publish_invokes_iff_key_matches {κ π : Type} (c : Channel κ) (hfree : c.mutex = false)
    (e : String) (x : π) :
    (c.Publish e x).exit = Exit.returned ∧
    (∀ cb : κ, (⟨cb, e, x⟩ : Goroutine κ π) ∈ (c.Publish e x).spawned ↔
        ∃ p, cb ∈ c.subs p ∧ p.data <+: e.data) ∧
    (∀ (p : String) (cb : κ), cb ∈ c.subs p → (∀ q, cb ∈ c.subs q → q = p) →
        ((⟨cb, e, x⟩ : Goroutine κ π) ∈ (c.Publish e x).spawned ↔ p.data <+: e.data)) ∧
    (∀ cb : κ, cb ∈ c.subs "" → (⟨cb, e, x⟩ : Goroutine κ π) ∈ (c.Publish e x).spawned) ∧
    (∀ first second : κ,
        List.Perm ((orderChannel first second).Publish "order.created" x).spawned
          [⟨first, "order.created", x⟩, ⟨second, "order.created", x⟩] ∧
        ((orderChannel first second).Publish "order.cancelled" x).spawned
          = [⟨first, "order.cancelled", x⟩]) := by
  have key : ∀ cb : κ, (⟨cb, e, x⟩ : Goroutine κ π) ∈ (c.Publish e x).spawned ↔
      ∃ p, cb ∈ c.subs p ∧ p.data <+: e.data := by
    intro cb
    rw [mem_spawned_iff c hfree]
    simp
  refine ⟨by rw [Publish_free c hfree], key, ?_, ?_, ?_⟩
  · intro p cb hreg honly
    rw [key]
    constructor
    · rintro ⟨q, hq, hpre⟩
      rw [← honly q hq]
      exact hpre
    · intro hpre
      exact ⟨p, hreg, hpre⟩
  · intro cb hreg
    exact (key cb).2 ⟨"", hreg, List.nil_prefix⟩
  · intro first second
    exact ⟨List.Perm.swap _ _ _, rfl⟩

/-- C1 at the routing example: `second`, subscribed under "order.created" only, is
invoked by `Publish("order.created", 0)`. -/
theorem publish_invokes_iff_key_matches_witness :
    (orderChannel 1 2).mutex = false ∧
    ((⟨2, "order.created", 0⟩ : Goroutine Nat Nat) ∈
        ((orderChannel 1 2).Publish "order.created" 0).spawned ↔
      ∃ p, 2 ∈ (orderChannel 1 2).subs p ∧ p.data <+: "order.created".data) :=
  ⟨rfl, (publish_invokes_iff_key_matches (orderChannel 1 2) rfl "order.created" 0).2.1 2⟩

/-! ## Counting: one invocation per matching registration -/

theorem HasPrefix_eq_decide (e p : String) : HasPrefix e p = decide (p.data <+: e.data) := by
  rw [Bool.eq_iff_iff, HasPrefix_iff, decide_eq_true_eq]

/-- On an initialised channel with a free mutex `Subscribe` returns and stores the
old list of the key with the callback appended. -/
theorem Subscribe_init {κ : Type} (t : GoMap (List κ)) (p : String) (cb : κ) :
    (Channel.Subscribe ⟨some t, false⟩ p cb)
      = ⟨⟨some (t.insert p ((t.lookup p).getD [] ++ [cb])), false⟩, Exit.returned⟩ := by
  unfold Channel.Subscribe
  cases h : t.lookup p <;>
    simp [Channel.Lock, Channel.Unlock, mapIndex, mapAssign, h]

theorem flatMap_entries_kerase_perm {κ : Type} (t : GoMap (List κ)) (p : String) (l : List κ)
    (h : t.lookup p = some l) (f : String × List κ → List (String × κ)) :
    List.Perm ((t.entries.map (fun kv => (kv.1, kv.2))).flatMap f)
      (f (p, l) ++ ((List.kerase p t.entries).map (fun kv => (kv.1, kv.2))).flatMap f) := by
  have hmem : p ∈ t.entries.keys := by
    have : p ∈ t := by
      rw [← AList.lookup_isSome, h]
      rfl
    exact this
  obtain ⟨b, l₁, l₂, _, hsplit, hker⟩ := List.exists_of_kerase hmem
  have hb : b = l := by
    have hin : (⟨p, b⟩ : Sigma (fun _ : String => List κ)) ∈ t.entries := by
      rw [hsplit]
      simp
    have := AList.mem_lookup_iff.2 hin
    rw [h] at this
    exact (Option.some.inj this).symm
  subst hb
  rw [hker, hsplit]
  simp only [List.map_append, List.map_cons, List.flatMap_append, List.flatMap_cons]
  exact List.perm_append_comm_assoc _ _ _

/-- `Subscribe` adds exactly one registration and keeps all the others. -/
theorem registrations_Subscribe {κ : Type} (t : GoMap (List κ)) (p : String) (cb : κ) :
    List.Perm (Channel.Subscribe ⟨some t, false⟩ p cb).channel.registrations
      (Channel.registrations ⟨some t, false⟩ ++ [(p, cb)]) := by
  rw [Subscribe_init]
  unfold Channel.registrations mapRange
  simp only [AList.insert_entries, List.map_cons, List.flatMap_cons]
  cases h : t.lookup p with
  | none =>
    have hnot : p ∉ t.entries.keys := by
      have : p ∉ t := by
        rw [← AList.lookup_eq_none]
        exact h
      exact this
    rw [List.kerase_of_not_mem_keys hnot]
    simp only [Option.getD_none, List.nil_append, List.map_cons, List.map_nil]
    exact List.perm_append_comm
  | some l =>
    have hp := flatMap_entries_kerase_perm t p l h
      (fun kv => kv.2.map (fun cb => (kv.1, cb)))
    simp only [Option.getD_some, List.map_append, List.map_cons, List.map_nil]
    refine List.Perm.trans ?_ (List.Perm.append_right _ hp.symm)
    simp only [List.append_assoc]
    refine List.Perm.append_left _ ?_
    exact List.perm_append_comm

/-- A run of `Subscribe` calls on an initialised channel with a free mutex leaves it
initialised and free, and adds one registration per call. -/
theorem registrations_subscribeAll {κ : Type} (calls : List (String × κ))
    (t : GoMap (List κ)) :
    ∃ t', subscribeAll ⟨some t, false⟩ calls = ⟨some t', false⟩ ∧
      List.Perm (Channel.registrations ⟨some t', false⟩)
        (Channel.registrations ⟨some t, false⟩ ++ calls) := by
  induction calls generalizing t with
  | nil => exact ⟨t, rfl, by simp⟩
  | cons r rest ih =>
    have hstep := registrations_Subscribe t r.1 r.2
    rw [Subscribe_init] at hstep
    obtain ⟨t', heq, hperm⟩ := ih (t.insert r.1 ((t.lookup r.1).getD [] ++ [r.2]))
    refine ⟨t', ?_, ?_⟩
    · unfold subscribeAll at heq ⊢
      rw [List.foldl_cons, Subscribe_init]
      exact heq
    · refine hperm.trans ?_
      refine (List.Perm.append_right rest hstep).trans ?_
      simp

theorem count_spawned_map {κ π : Type} [DecidableEq κ] [DecidableEq π] (e : String) (x : π)
    (cb : κ) (l : List (String × κ)) :
    (l.map (fun r => (⟨r.2, e, x⟩ : Goroutine κ π))).count ⟨cb, e, x⟩
      = l.countP (fun r => decide (r.2 = cb)) := by
  rw [List.count_eq_countP, List.countP_map]
  refine List.countP_congr ?_
  intro r _
  simp [Goroutine.mk.injEq]

/-- The number of invocations of `cb` started by one `Publish(e, x)` is the number of
registrations of `cb` whose key is a prefix of `e`. -/
theorem count_spawned {κ π : Type} [DecidableEq κ] [DecidableEq π] (c : Channel κ)
    (hfree : c.mutex = false) (e : String) (x : π) (cb : κ) :
    (c.Publish e x).spawned.count ⟨cb, e, x⟩
      = c.registrations.countP (fun r => decide (r.2 = cb ∧ r.1.data <+: e.data)) := by
  rw [Publish_free c hfree]
  simp only
  rw [count_spawned_map, List.countP_filter]
  refine List.countP_congr ?_
  intro r _
  simp [HasPrefix_eq_decide]

/-- C2: on a channel whose mutex is free, the invocations started by one
`Publish(e, x)` are, as a multiset, exactly one `(cb, e, x)` for every registration
`(p, cb)` whose key `p` is a prefix of `e`.  Every invocation carries the event name and
payload given to `Publish`.  A callback is invoked as many times as it has registrations
under matching keys: once when it has a single registration and that one matches, and,
after any run of `Subscribe` calls on an initialised channel, once more for every call
that subscribed it under a matching key. -/
theorem publish_one_invocation_per_registration {κ π : Type} [DecidableEq κ] [DecidableEq π]
    (c : Channel κ) (hfree : c.mutex = false) (e : String) (x : π) :
    List.Perm (c.Publish e x).spawned
      ((c.registrations.filter (fun r => decide (r.1.data <+: e.data))).map
        (fun r => (⟨r.2, e, x⟩ : Goroutine κ π))) ∧
    (∀ g ∈ (c.Publish e x).spawned, g.eventname = e ∧ g.payload = x) ∧
    (∀ cb : κ, (c.Publish e x).spawned.count ⟨cb, e, x⟩
        = c.registrations.countP (fun r => decide (r.2 = cb ∧ r.1.data <+: e.data))) ∧
    (∀ (p : String) (cb : κ), (p, cb) ∈ c.registrations →
        c.registrations.countP (fun r => decide (r.2 = cb)) = 1 → p.data <+: e.data →
        (c.Publish e x).spawned.count ⟨cb, e, x⟩ = 1) ∧
    (∀ (calls : List (String × κ)) (cb : κ), c.subscribers.isSome = true →
        ((subscribeAll c calls).Publish e x).spawned.count ⟨cb, e, x⟩
          = (c.Publish e x).spawned.count ⟨cb, e, x⟩
            + calls.countP (fun r => decide (r.2 = cb ∧ r.1.data <+: e.data))) := by
  refine ⟨?_, ?_, count_spawned c hfree e x, ?_, ?_⟩
  · rw [Publish_free c hfree]
    simp only [HasPrefix_eq_decide]
    exact List.Perm.refl _
  · intro g hg
    obtain ⟨_, _, _, he, hx⟩ := (mem_spawned_iff c hfree e x g).1 hg
    exact ⟨he, hx⟩
  · intro p cb hmem hone hpre
    rw [count_spawned c hfree e x cb]
    apply Nat.le_antisymm
    · rw [← hone]
      exact List.countP_mono_left (fun r _ h => by simp at h ⊢; exact h.1)
    · exact List.countP_pos_iff.2 ⟨(p, cb), hmem, by simp [hpre]⟩
  · intro calls cb hinit
    obtain ⟨m, lk⟩ := c
    simp only at hfree
    subst hfree
    cases m with
    | none => simp at hinit
    | some t =>
      obtain ⟨t', heq, hperm⟩ := registrations_subscribeAll calls t
      rw [heq, count_spawned _ rfl, count_spawned _ rfl, hperm.countP_eq, List.countP_append]

/-- C2 on the end-to-end scenario: a fresh channel, `Subscribe("order.created", 1)`,
`Subscribe("order", 2)`; `Publish("order.created", 7)` invokes callback 1 exactly once
and callback 2 exactly once, `Publish("shipment.sent", 8)` invokes nothing. -/
theorem publish_one_invocation_per_registration_witness :
    ((Channel.zero Nat).Init).mutex = false ∧
    (((subscribeAll (Channel.zero Nat).Init
          [("order.created", 1), ("order", 2)]).Publish "order.created" 7).spawned.count
        (⟨1, "order.created", 7⟩ : Goroutine Nat Nat)
      = (((Channel.zero Nat).Init).Publish "order.created" 7).spawned.count
          (⟨1, "order.created", 7⟩ : Goroutine Nat Nat)
        + [("order.created", 1), ("order", 2)].countP
            (fun r => decide (r.2 = 1 ∧ r.1.data <+: "order.created".data))) ∧
    ((subscribeAll (Channel.zero Nat).Init
          [("order.created", 1), ("order", 2)]).Publish "order.created" 7).spawned.count
        (⟨1, "order.created", 7⟩ : Goroutine Nat Nat) = 1 ∧
    ((subscribeAll (Channel.zero Nat).Init
          [("order.created", 1), ("order", 2)]).Publish "order.created" 7).spawned.count
        (⟨2, "order.created", 7⟩ : Goroutine Nat Nat) = 1 ∧
    ((subscribeAll (Channel.zero Nat).Init
          [("order.created", 1), ("order", 2)]).Publish "shipment.sent" 8).spawned
        = ([] : List (Goroutine Nat Nat)) :=
  ⟨rfl,
   (publish_one_invocation_per_registration (Channel.zero Nat).Init rfl "order.created"
      7).2.2.2.2 [("order.created", 1), ("order", 2)] 1 rfl,
   by decide, by decide, by decide⟩

/-! ## The registry -/

theorem data_length_pos_iff (name : String) : name.data.length > 0 ↔ name ≠ "" := by
  constructor
  · rintro h rfl
    simp at h
  · intro h
    rcases name with ⟨l⟩
    cases l with
    | nil => exact absurd rfl h
    | cons a l => simp

/-- `CreateChannel("")`: the new channel is allocated and returned, `Channels` is not
touched. -/
theorem CreateChannel_empty {κ : Type} (w : World κ) :
    CreateChannel w ""
      = ⟨⟨w.heap ++ [(Channel.zero κ).Init], w.Channels⟩, some w.heap.length, none⟩ := by
  simp [CreateChannel]

/-- `CreateChannel(name)` for a registered name: the new channel is allocated and
dropped, `Channels` is not touched, the error is returned. -/
theorem CreateChannel_dup {κ : Type} (w : World κ) (name : String) (hname : name ≠ "")
    (a : Addr) (hreg : w.lookup name = some a) :
    CreateChannel w name
      = ⟨⟨w.heap ++ [(Channel.zero κ).Init], w.Channels⟩, none,
          some "Channel already exists"⟩ := by
  have hlen : ¬ name.length = 0 := Nat.pos_iff_ne_zero.1 ((data_length_pos_iff name).2 hname)
  obtain ⟨heap, chans⟩ := w
  cases chans with
  | none => simp [World.lookup, mapIndex] at hreg
  | some t =>
    simp only [World.lookup, mapIndex] at hreg
    simp [CreateChannel, hlen, mapIndex, hreg]

/-- `CreateChannel(name)` for a free non-empty name: the new channel is allocated,
stored under the name (in a map made on the spot when `Channels` was nil) and
returned. -/
theorem CreateChannel_fresh {κ : Type} (w : World κ) (name : String) (hname : name ≠ "")
    (hfree : w.lookup name = none) :
    CreateChannel w name
      = ⟨⟨w.heap ++ [(Channel.zero κ).Init],
            some ((w.Channels.getD ∅).insert name w.heap.length)⟩,
          some w.heap.length, none⟩ := by
  have hlen : ¬ name.length = 0 := Nat.pos_iff_ne_zero.1 ((data_length_pos_iff name).2 hname)
  obtain ⟨heap, chans⟩ := w
  cases chans with
  | none => simp [CreateChannel, hlen, mapIndex, mapAssign]
  | some t =>
    simp only [World.lookup, mapIndex] at hfree
    simp [CreateChannel, hlen, mapIndex, mapAssign, hfree]

theorem deref_append {κ : Type} (w : World κ) (c ch : Channel κ) (chans : Option (GoMap Addr))
    (a : Addr) (h : w.deref a = some ch) :
    World.deref ⟨w.heap ++ [c], chans⟩ a = some ch := by
  unfold World.deref at h ⊢
  simp only [List.get?_eq_getElem?] at h ⊢
  have hlt : a < w.heap.length := by
    by_contra hge
    rw [List.getElem?_eq_none (Nat.le_of_not_lt hge)] at h
    exact Option.noConfusion h
  rw [List.getElem?_append_left hlt]
  exact h

theorem lookup_lt_of_allocated {κ : Type} (w : World κ) (hw : w.allocated = true)
    (name : String) (a : Addr) (h : w.lookup name = some a) : a < w.heap.length := by
  obtain ⟨heap, chans⟩ := w
  cases chans with
  | none => simp [World.lookup, mapIndex] at h
  | some t =>
    unfold World.allocated at hw
    rw [List.all_eq_true] at hw
    have := hw (name, a) ((mem_mapRange t name a).2 h)
    simpa using this

theorem lookup_getD_empty {κ : Type} (w : World κ) (n : String) :
    (w.Channels.getD ∅).lookup n = w.lookup n := by
  obtain ⟨heap, chans⟩ := w
  cases chans <;> simp [World.lookup, mapIndex]

/-- What a lookup finds after `CreateChannel(m)`: the new channel under `m` when `m`
is non-empty and was free, and what it found before in every other case. -/
theorem lookup_CreateChannel {κ : Type} (w : World κ) (m n : String) :
    (CreateChannel w m).world.lookup n
      = if m ≠ "" ∧ n = m ∧ w.lookup m = none then some w.heap.length else w.lookup n := by
  by_cases hm : m = ""
  · subst hm
    rw [CreateChannel_empty]
    simp [World.lookup]
  · cases hreg : w.lookup m with
    | some a =>
      rw [CreateChannel_dup w m hm a hreg]
      simp [World.lookup]
    | none =>
      rw [CreateChannel_fresh w m hm hreg]
      by_cases hn : n = m
      · subst hn
        simp [World.lookup, mapIndex, hm]
      · have := lookup_getD_empty w n
        simp [World.lookup, mapIndex, hm, hn, AList.lookup_insert_ne hn] at this ⊢
        exact this

theorem heap_CreateChannel {κ : Type} (w : World κ) (m : String) :
    (CreateChannel w m).world.heap = w.heap ++ [(Channel.zero κ).Init] := by
  by_cases hm : m = ""
  · subst hm
    rw [CreateChannel_empty]
  · cases hreg : w.lookup m with
    | some a => rw [CreateChannel_dup w m hm a hreg]
    | none => rw [CreateChannel_fresh w m hm hreg]

theorem deref_CreateChannel {κ : Type} (w : World κ) (m : String) (b : Addr) (ch : Channel κ)
    (h : w.deref b = some ch) : (CreateChannel w m).world.deref b = some ch := by
  have hheap := heap_CreateChannel w m
  have := deref_append w (Channel.zero κ).Init ch (CreateChannel w m).world.Channels b h
  unfold World.deref at this ⊢
  rw [hheap]
  exact this

theorem deref_new_CreateChannel {κ : Type} (w : World κ) (m : String) :
    (CreateChannel w m).world.deref w.heap.length = some (Channel.zero κ).Init := by
  unfold World.deref
  rw [heap_CreateChannel]
  simp

theorem allocated_iff {κ : Type} (w : World κ) :
    w.allocated = true ↔ ∀ n a, w.lookup n = some a → a < w.heap.length := by
  constructor
  · intro hw n a h
    exact lookup_lt_of_allocated w hw n a h
  · intro h
    obtain ⟨heap, chans⟩ := w
    cases chans with
    | none => simp [World.allocated, mapRange]
    | some t =>
      unfold World.allocated
      rw [List.all_eq_true]
      rintro ⟨n, a⟩ hmem
      have := h n a ((mem_mapRange t n a).1 hmem)
      simpa using this

/-- `CreateChannel` keeps every registered pointer allocated. -/
theorem allocated_CreateChannel {κ : Type} (w : World κ) (m : String)
    (hw : w.allocated = true) : (CreateChannel w m).world.allocated = true := by
  rw [allocated_iff] at hw ⊢
  intro n a h
  rw [heap_CreateChannel, List.length_append]
  rw [lookup_CreateChannel] at h
  split at h
  · rw [← Option.some.inj h]
    exact Nat.lt_succ_self _
  · exact Nat.lt_of_lt_of_le (hw n a h) (Nat.le_add_right _ _)

theorem allocated_createAll {κ : Type} (names : List String) (w : World κ)
    (hw : w.allocated = true) : (createAll w names).allocated = true := by
  induction names generalizing w with
  | nil => exact hw
  | cons m rest ih => exact ih _ (allocated_CreateChannel w m hw)

theorem lookup_createAll {κ : Type} (names : List String) (w : World κ) (n : String) :
    ((createAll w names).lookup n).isSome = true ↔
      (w.lookup n).isSome = true ∨ (n ∈ names ∧ n ≠ "") := by
  induction names generalizing w with
  | nil => simp [createAll]
  | cons m rest ih =>
    have hstep : createAll w (m :: rest) = createAll (CreateChannel w m).world rest := rfl
    rw [hstep, ih, lookup_CreateChannel]
    by_cases hnm : n = m
    · subst hnm
      by_cases hn : n = ""
      · simp [hn]
      · cases hl : w.lookup n <;> simp [hn, hl]
    · have hmn : ¬ m = n := fun h => hnm h.symm
      simp [hnm, hmn]

/-- C3: `CreateChannel(n)` for a non-empty name `n` that is registered returns the
error and no channel, and leaves the registry as it was: `Channels` is unchanged, `n`
still maps to the same pointer, and every channel allocated before is unchanged, the
one registered under `n` included.  In particular the second of two `CreateChannel(x)`
calls fails whatever the first did, and the lookup of `x` is what it was after the
first. -/
theorem create_duplicate_fails {κ : Type} (w : World κ) (name : String) (hname : name ≠ "")
    (a : Addr) (hreg : w.lookup name = some a) :
    (CreateChannel w name).err = some "Channel already exists" ∧
    (CreateChannel w name).channel = none ∧
    (CreateChannel w name).world.Channels = w.Channels ∧
    (CreateChannel w name).world.lookup name = some a ∧
    (∀ (b : Addr) (ch : Channel κ), w.deref b = some ch →
        (CreateChannel w name).world.deref b = some ch) ∧
    (∀ (v : World κ) (x : String), x ≠ "" →
        (CreateChannel (CreateChannel v x).world x).err = some "Channel already exists" ∧
        (CreateChannel (CreateChannel v x).world x).channel = none ∧
        (CreateChannel (CreateChannel v x).world x).world.lookup x
          = (CreateChannel v x).world.lookup x) := by
  refine ⟨?_, ?_, ?_, ?_, ?_, ?_⟩
  · rw [CreateChannel_dup w name hname a hreg]
  · rw [CreateChannel_dup w name hname a hreg]
  · rw [CreateChannel_dup w name hname a hreg]
  · rw [CreateChannel_dup w name hname a hreg]
    exact hreg
  · intro b ch h
    exact deref_CreateChannel w name b ch h
  · intro v x hx
    have hsome : ∃ b, (CreateChannel v x).world.lookup x = some b := by
      rw [lookup_CreateChannel]
      cases hl : v.lookup x with
      | none => exact ⟨v.heap.length, by simp [hx]⟩
      | some b => exact ⟨b, by simp⟩
    obtain ⟨b, hb⟩ := hsome
    rw [CreateChannel_dup _ x hx b hb]
    exact ⟨rfl, rfl, rfl⟩

/-- C3 on a registry where "x" is registered and its channel has a subscriber: the
second `CreateChannel("x")` fails and a `Publish` through the name still reaches the
subscriber. -/
theorem create_duplicate_fails_witness :
    "x" ≠ "" ∧ busyWorld.lookup "x" = some 0 ∧
    (CreateChannel busyWorld "x").err = some "Channel already exists" ∧
    (CreateChannel busyWorld "x").channel = none ∧
    (CreateChannel busyWorld "x").world.lookup "x" = some 0 ∧
    World.Publish (CreateChannel busyWorld "x").world 0 "e" 1
      = some [(⟨5, "e", 1⟩ : Goroutine Nat Nat)] :=
  ⟨by decide, by decide,
   (create_duplicate_fails busyWorld "x" (by decide) 0 (by decide)).1,
   (create_duplicate_fails busyWorld "x" (by decide) 0 (by decide)).2.1,
   (create_duplicate_fails busyWorld "x" (by decide) 0 (by decide)).2.2.2.1,
   by decide⟩

/-- C4: `CreateChannel(n)` for a non-empty name `n` that is not registered succeeds:
it returns no error and a pointer to a newly allocated, initialised channel;
afterwards the lookup of `n` finds exactly that pointer, the lookup of every other
name finds what it found before, and every channel allocated before is unchanged. -/
theorem create_registers_free_name {κ : Type} (w : World κ) (name : String)
    (hname : name ≠ "") (hfree : w.lookup name = none) :
    (CreateChannel w name).err = none ∧
    (CreateChannel w name).channel = some w.heap.length ∧
    (CreateChannel w name).world.lookup name = (CreateChannel w name).channel ∧
    (∀ other : String, other ≠ name →
        (CreateChannel w name).world.lookup other = w.lookup other) ∧
    (CreateChannel w name).world.deref w.heap.length = some (Channel.zero κ).Init ∧
    w.deref w.heap.length = none ∧
    (∀ (b : Addr) (ch : Channel κ), w.deref b = some ch →
        (CreateChannel w name).world.deref b = some ch) := by
  refine ⟨?_, ?_, ?_, ?_, deref_new_CreateChannel w name, ?_, ?_⟩
  · rw [CreateChannel_fresh w name hname hfree]
  · rw [CreateChannel_fresh w name hname hfree]
  · rw [lookup_CreateChannel, CreateChannel_fresh w name hname hfree]
    simp [hname, hfree]
  · intro other hother
    rw [lookup_CreateChannel]
    simp [hother]
  · simp [World.deref]
  · intro b ch h
    exact deref_CreateChannel w name b ch h

/-- C4 on the start of `main`: `CreateChannel("getaround")` on the nil registry
succeeds, `Channels["getaround"]` is the returned channel, and a callback subscribed
through it under the empty key receives a published event. -/
theorem create_registers_free_name_witness :
    "getaround" ≠ "" ∧ (World.initial Nat).lookup "getaround" = none ∧
    (CreateChannel (World.initial Nat) "getaround").err = none ∧
    (CreateChannel (World.initial Nat) "getaround").world.lookup "getaround"
      = (CreateChannel (World.initial Nat) "getaround").channel ∧
    (CreateChannel (World.initial Nat) "getaround").channel = some 0 ∧
    World.Publish
        (World.Subscribe (CreateChannel (World.initial Nat) "getaround").world 0 "" 9)
        0 "job.done" 1
      = some [(⟨9, "job.done", 1⟩ : Goroutine Nat Nat)] :=
  ⟨by decide, rfl,
   (create_registers_free_name (World.initial Nat) "getaround" (by decide) rfl).1,
   (create_registers_free_name (World.initial Nat) "getaround" (by decide) rfl).2.2.1,
   by decide, by decide⟩

theorem Channels_createAll_empty {κ : Type} (k : Nat) (w : World κ) :
    (createAll w (List.replicate k "")).Channels = w.Channels := by
  induction k generalizing w with
  | zero => rfl
  | succ k ih =>
    have hstep : createAll w (List.replicate (k + 1) "")
        = createAll (CreateChannel w "").world (List.replicate k "") := rfl
    rw [hstep, ih, CreateChannel_empty]

/-- C5: `CreateChannel("")` returns no error and a pointer to a newly allocated,
initialised channel, and leaves `Channels` exactly as it was, so every lookup finds
what it found before; no name leads to the returned channel (the registered pointers
being allocated ones); and any number of such calls leaves `Channels` as it was. -/
theorem create_unnamed_is_private {κ : Type} (w : World κ) :
    (CreateChannel w "").err = none ∧
    (CreateChannel w "").channel = some w.heap.length ∧
    (CreateChannel w "").world.deref w.heap.length = some (Channel.zero κ).Init ∧
    (CreateChannel w "").world.Channels = w.Channels ∧
    (∀ name : String, (CreateChannel w "").world.lookup name = w.lookup name) ∧
    (w.allocated = true →
        ∀ name : String, (CreateChannel w "").world.lookup name ≠ (CreateChannel w "").channel) ∧
    (∀ k : Nat, (createAll w (List.replicate k "")).Channels = w.Channels) := by
  refine ⟨?_, ?_, deref_new_CreateChannel w "", ?_, ?_, ?_, ?_⟩
  · rw [CreateChannel_empty]
  · rw [CreateChannel_empty]
  · rw [CreateChannel_empty]
  · intro name
    rw [CreateChannel_empty]
    rfl
  · intro hw name h
    rw [CreateChannel_empty] at h
    have hlt := lookup_lt_of_allocated w hw name w.heap.length h
    exact Nat.lt_irrefl _ hlt
  · intro k
    exact Channels_createAll_empty k w

/-- C5 on the registry holding "x": the channel `CreateChannel("")` returns is not
the one found under "x", and three such calls leave the registry as it was. -/
theorem create_unnamed_is_private_witness :
    busyWorld.allocated = true ∧
    (CreateChannel busyWorld "").world.lookup "x" ≠ (CreateChannel busyWorld "").channel ∧
    (createAll busyWorld (List.replicate 3 "")).Channels = busyWorld.Channels :=
  ⟨by decide,
   (create_unnamed_is_private busyWorld).2.2.2.2.2.1 (by decide) "x",
   (create_unnamed_is_private busyWorld).2.2.2.2.2.2 3⟩

/-- C6: after any run of `CreateChannel` calls from program start, the lookup of a
name `n` finds a channel if and only if one of the calls had that same non-empty `n`
as argument; otherwise it finds nothing (`ok = false`, no pointer), as it does for
every name at program start; and a pointer it finds refers to an allocated channel. -/
theorem lookup_finds_iff_created {κ : Type} (names : List String) (n : String) :
    (((createAll (World.initial κ) names).lookup n).isSome = true ↔ (n ∈ names ∧ n ≠ "")) ∧
    ((createAll (World.initial κ) names).lookup n = none ↔ ¬ (n ∈ names ∧ n ≠ "")) ∧
    (World.initial κ).lookup n = none ∧
    (∀ a : Addr, (createAll (World.initial κ) names).lookup n = some a →
        ∃ ch, (createAll (World.initial κ) names).deref a = some ch) := by
  have hiff : ((createAll (World.initial κ) names).lookup n).isSome = true ↔
      (n ∈ names ∧ n ≠ "") := by
    rw [lookup_createAll]
    simp [World.initial, World.lookup, mapIndex]
  refine ⟨hiff, ?_, rfl, ?_⟩
  · rw [← hiff]
    cases (createAll (World.initial κ) names).lookup n <;> simp
  · intro a ha
    have hall : (createAll (World.initial κ) names).allocated = true :=
      allocated_createAll names (World.initial κ) rfl
    have hlt := lookup_lt_of_allocated _ hall n a ha
    refine ⟨(createAll (World.initial κ) names).heap.get ⟨a, hlt⟩, ?_⟩
    unfold World.deref
    rw [List.get?_eq_get hlt]

/-- C6 on the run `CreateChannel("a")`, `CreateChannel("")`, `CreateChannel("a")`,
`CreateChannel("b")`: "b" is found at the fourth channel allocated, "c" and "" are
not found. -/
theorem lookup_finds_iff_created_witness :
    ((((createAll (World.initial Nat) ["a", "", "a", "b"]).lookup "b").isSome = true ↔
        ("b" ∈ ["a", "", "a", "b"] ∧ "b" ≠ ""))) ∧
    (createAll (World.initial Nat) ["a", "", "a", "b"]).lookup "b" = some 3 ∧
    (createAll (World.initial Nat) ["a", "", "a", "b"]).lookup "a" = some 0 ∧
    (createAll (World.initial Nat) ["a", "", "a", "b"]).lookup "c" = none ∧
    (createAll (World.initial Nat) ["a", "", "a", "b"]).lookup "" = none :=
  ⟨(lookup_finds_iff_created ["a", "", "a", "b"] "b").1,
   by decide, by decide, by decide, by decide⟩

/-! ## Subscriptions -/

theorem subs_insert {κ : Type} (t : GoMap (List κ)) (lk : Bool) (p q : String) (l : List κ) :
    Channel.subs ⟨some (t.insert p l), lk⟩ q
      = if q = p then l else Channel.subs ⟨some t, lk⟩ q := by
  unfold Channel.subs mapIndex
  by_cases h : q = p
  · subst h
    simp
  · simp [h, AList.lookup_insert_ne h]

/-- C7: on an initialised channel whose mutex is free, `Subscribe(p, cb)` returns;
afterwards the callback list of `p` is its previous list (empty when `p` was absent)
with `cb` appended at the end, `p` is a key of the map, every other key has the entry
it had before (none when it had none), and the channel is still initialised with a
free mutex. -/
theorem subscribe_appends {κ : Type} (c : Channel κ) (hinit : c.subscribers.isSome = true)
    (hfree : c.mutex = false) (p : String) (cb : κ) :
    (c.Subscribe p cb).exit = Exit.returned ∧
    (c.Subscribe p cb).channel.subs p = c.subs p ++ [cb] ∧
    mapIndex (c.Subscribe p cb).channel.subscribers p = some (c.subs p ++ [cb]) ∧
    (∀ q : String, q ≠ p → (c.Subscribe p cb).channel.subs q = c.subs q) ∧
    (∀ q : String, q ≠ p →
        mapIndex (c.Subscribe p cb).channel.subscribers q = mapIndex c.subscribers q) ∧
    (c.Subscribe p cb).channel.subscribers.isSome = true ∧
    (c.Subscribe p cb).channel.mutex = false := by
  obtain ⟨m, lk⟩ := c
  simp only at hfree
  subst hfree
  cases m with
  | none => simp at hinit
  | some t =>
    rw [Subscribe_init]
    refine ⟨rfl, ?_, ?_, ?_, ?_, rfl, rfl⟩
    · rw [subs_insert]
      simp [Channel.subs, mapIndex]
    · simp [Channel.subs, mapIndex]
    · intro q hq
      rw [subs_insert]
      simp [hq]
    · intro q hq
      simp [mapIndex, AList.lookup_insert_ne hq]

/-- C7 on the routing example: a third subscription under "order" is appended
behind the first one, the list of "order.created" is unchanged. -/
theorem subscribe_appends_witness :
    (orderChannel 1 2).subscribers.isSome = true ∧ (orderChannel 1 2).mutex = false ∧
    ((orderChannel 1 2).Subscribe "order" 3).channel.subs "order"
      = (orderChannel 1 2).subs "order" ++ [3] ∧
    ((orderChannel 1 2).Subscribe "order" 3).channel.subs "order" = [1, 3] ∧
    ((orderChannel 1 2).Subscribe "order" 3).channel.subs "order.created" = [2] :=
  ⟨rfl, rfl, (subscribe_appends (orderChannel 1 2) rfl rfl "order" 3).2.1,
   by decide, by decide⟩

theorem subs_Subscribe_prefix {κ : Type} (c : Channel κ) (p : String) (cb : κ) (q : String) :
    c.subs q <+: (c.Subscribe p cb).channel.subs q := by
  obtain ⟨m, lk⟩ := c
  cases lk with
  | true => simp [Channel.Subscribe, Channel.Lock]
  | false =>
    cases m with
    | none =>
      simp [Channel.Subscribe, Channel.Lock, Channel.Unlock, mapIndex, mapAssign, Channel.subs]
    | some t =>
      rw [Subscribe_init, subs_insert]
      by_cases h : q = p
      · subst h
        simp [Channel.subs, mapIndex]
      · simp [h]

theorem subs_Publish {κ π : Type} (c : Channel κ) (e : String) (x : π) (q : String) :
    (c.Publish e x).channel.subs q = c.subs q := by
  obtain ⟨m, lk⟩ := c
  cases lk <;> simp [Channel.Publish, Channel.Lock, Channel.Unlock, Channel.subs]

/-- C8, refuted for `Init`: on a channel holding a subscription under "a", `Init`
leaves the list of "a" empty, so the list before is not an initial segment of the list
after. -/
theorem init_drops_subscriptions :
    ¬ (((Channel.zero Nat).Init.Subscribe "a" 1).channel.subs "a"
        <+: ((Channel.zero Nat).Init.Subscribe "a" 1).channel.Init.subs "a") := by
  decide

/-- C8, amended: `Subscribe` and `Publish` never remove a subscription: in every
channel state, however the call ends, the callback list of each key before a
`Subscribe` is an initial segment of that key's list after it, and a `Publish` leaves
every list as it was.  `Init` replaces the map by an empty one: after it every list
is empty. -/
theorem subscriptions_only_grow {κ π : Type} (c : Channel κ) (q : String) :
    (∀ (p : String) (cb : κ), c.subs q <+: (c.Subscribe p cb).channel.subs q) ∧
    (∀ (e : String) (x : π), (c.Publish e x).channel.subs q = c.subs q) ∧
    c.Init.subs q = [] := by
  refine ⟨fun p cb => subs_Subscribe_prefix c p cb q, fun e x => subs_Publish c e x q, ?_⟩
  simp [Channel.Init, Channel.subs, mapIndex]

/-! ## Liveness of created channels, and the zero channel -/

/-- One call on an initialised channel with a free mutex returns and leaves the
channel initialised with a free mutex. -/
theorem step_live {κ π : Type} (c : Channel κ) (hinit : c.subscribers.isSome = true)
    (hfree : c.mutex = false) (call : Call κ π) :
    c.exitOf call = Exit.returned ∧ (c.step call).subscribers.isSome = true ∧
      (c.step call).mutex = false := by
  obtain ⟨m, lk⟩ := c
  simp only at hfree
  subst hfree
  cases m with
  | none => simp at hinit
  | some t =>
    cases call with
    | subscribe key cb =>
      simp only [Channel.exitOf, Channel.step]
      rw [Subscribe_init]
      exact ⟨rfl, rfl, rfl⟩
    | publish e x =>
      simp only [Channel.exitOf, Channel.step]
      rw [Publish_free _ rfl]
      exact ⟨rfl, rfl, rfl⟩

theorem run_live {κ π : Type} (calls : List (Call κ π)) (c : Channel κ)
    (hinit : c.subscribers.isSome = true) (hfree : c.mutex = false) :
    (c.run calls).subscribers.isSome = true ∧ (c.run calls).mutex = false := by
  induction calls generalizing c with
  | nil => exact ⟨hinit, hfree⟩
  | cons call rest ih =>
    have h := step_live c hinit hfree call
    exact ih (c.step call) h.2.1 h.2.2

/-- The pointer a successful `CreateChannel` returns refers to a channel that is
initialised and whose mutex is free. -/
theorem deref_created {κ : Type} (w : World κ) (name : String) (a : Addr)
    (hok : (CreateChannel w name).channel = some a) :
    (CreateChannel w name).world.deref a = some (Channel.zero κ).Init := by
  have ha : a = w.heap.length := by
    by_cases hm : name = ""
    · subst hm
      rw [CreateChannel_empty] at hok
      exact (Option.some.inj hok).symm
    · cases hreg : w.lookup name with
      | some b =>
        rw [CreateChannel_dup w name hm b hreg] at hok
        exact Option.noConfusion hok
      | none =>
        rw [CreateChannel_fresh w name hm hreg] at hok
        exact (Option.some.inj hok).symm
  rw [ha]
  exact deref_new_CreateChannel w name

/-- C14: on the zero value `Channel{}`, on which `Init` was never called,
`Publish(e, x)` returns and starts no goroutine, for every event name and payload,
whereas `Subscribe(p, cb)` panics on the write into the nil map, for every key and
callback, and registers nothing: the channel is left as it was, its mutex released by
the deferred `Unlock`. -/
theorem zero_channel_publish_returns_subscribe_panics {κ π : Type} :
    (∀ (e : String) (x : π),
        (Channel.zero κ).Publish e x
          = (⟨Channel.zero κ, [], Exit.returned⟩ : PublishResult κ π)) ∧
    (∀ (p : String) (cb : κ),
        (Channel.zero κ).Subscribe p cb
          = ⟨Channel.zero κ, Exit.panicked "assignment to entry in nil map"⟩) ∧
    (∀ (p q : String) (cb : κ), ((Channel.zero κ).Subscribe p cb).channel.subs q = []) := by
  refine ⟨?_, ?_, ?_⟩
  · intro e x
    rfl
  · intro p cb
    rfl
  · intro p q cb
    rfl

/-! ## The goroutines of a `Publish` call running concurrently with it -/

theorem run_eq_returned_iff {κ π : Type} (behaviour : κ → String → π → Outcome)
    (g : Goroutine κ π) :
    ¬ (g.run behaviour = Outcome.panicked) ↔ g.run behaviour = Outcome.returned := by
  cases h : g.run behaviour <;> simp

/-- Once a panic is pending the program does not survive. -/
theorem concurrentLoop_pending {κ π : Type} (behaviour : κ → String → π → Outcome)
    (delay : Nat → Nat) (todo started : List (Goroutine κ π)) (k : Nat) :
    (concurrentLoop behaviour delay todo started (some k)).survived = false := by
  induction todo generalizing started k with
  | nil => cases k <;> rfl
  | cons g rest ih =>
    cases k with
    | zero => rfl
    | succ k =>
      simp only [concurrentLoop]
      split
      · exact ih _ _
      · exact ih _ _

/-- A callback that panics among the goroutines still to start ends the program. -/
theorem concurrentLoop_panics {κ π : Type} (behaviour : κ → String → π → Outcome)
    (delay : Nat → Nat) (todo started : List (Goroutine κ π)) (fuse : Option Nat)
    (h : ∃ g ∈ todo, g.run behaviour = Outcome.panicked) :
    (concurrentLoop behaviour delay todo started fuse).survived = false := by
  cases fuse with
  | some k => exact concurrentLoop_pending behaviour delay todo started k
  | none =>
    induction todo generalizing started with
    | nil =>
      obtain ⟨g, hg, _⟩ := h
      exact absurd hg (List.not_mem_nil g)
    | cons g rest ih =>
      simp only [concurrentLoop]
      by_cases hp : g.run behaviour = Outcome.panicked
      · rw [if_pos hp]
        exact concurrentLoop_pending behaviour delay rest _ _
      · rw [if_neg hp]
        apply ih
        obtain ⟨g', hg', hpan⟩ := h
        rcases List.mem_cons.1 hg' with rfl | hmem
        · exact absurd hpan hp
        · exact ⟨g', hmem, hpan⟩

/-- When no callback panics every goroutine is started, `Publish` returns and the
program survives. -/
theorem concurrentLoop_quiet {κ π : Type} (behaviour : κ → String → π → Outcome)
    (delay : Nat → Nat) (todo started : List (Goroutine κ π))
    (h : ∀ g ∈ todo, g.run behaviour = Outcome.returned) :
    concurrentLoop behaviour delay todo started none = ⟨started ++ todo, true, true⟩ := by
  induction todo generalizing started with
  | nil => simp [concurrentLoop]
  | cons g rest ih =>
    have hg : ¬ (g.run behaviour = Outcome.panicked) := by
      rw [h g (by simp)]
      exact fun e => Outcome.noConfusion e
    simp only [concurrentLoop]
    rw [if_neg hg, ih _ (fun g' hg' => h g' (by simp [hg']))]
    simp

/-- Only `go` statements of the call are executed, in their order. -/
theorem concurrentLoop_started {κ π : Type} (behaviour : κ → String → π → Outcome)
    (delay : Nat → Nat) (todo started : List (Goroutine κ π)) (fuse : Option Nat) :
    ∃ n, (concurrentLoop behaviour delay todo started fuse).started
      = started ++ todo.take n := by
  induction todo generalizing started fuse with
  | nil =>
    refine ⟨0, ?_⟩
    rcases fuse with _ | _ | k <;> simp [concurrentLoop]
  | cons g rest ih =>
    rcases fuse with _ | _ | k
    · obtain ⟨n, hn⟩ := ih (started ++ [g])
        (if g.run behaviour = Outcome.panicked then some (delay started.length) else none)
      exact ⟨n + 1, by simp [concurrentLoop, hn]⟩
    · exact ⟨0, by simp [concurrentLoop]⟩
    · obtain ⟨n, hn⟩ := ih (started ++ [g])
        (if g.run behaviour = Outcome.panicked then some (min k (delay started.length))
          else some k)
      exact ⟨n + 1, by simp [concurrentLoop, hn]⟩

/-- When `Publish` returns, every `go` statement of the call was executed. -/
theorem concurrentLoop_returned {κ π : Type} (behaviour : κ → String → π → Outcome)
    (delay : Nat → Nat) (todo started : List (Goroutine κ π)) (fuse : Option Nat)
    (h : (concurrentLoop behaviour delay todo started fuse).returned = true) :
    (concurrentLoop behaviour delay todo started fuse).started = started ++ todo := by
  induction todo generalizing started fuse with
  | nil => rcases fuse with _ | _ | k <;> simp [concurrentLoop]
  | cons g rest ih =>
    rcases fuse with _ | _ | k
    · simp only [concurrentLoop] at h ⊢
      rw [ih _ _ h]
      simp
    · simp [concurrentLoop] at h
    · simp only [concurrentLoop] at h ⊢
      rw [ih _ _ h]
      simp

theorem publishRun_free {κ π : Type} (behaviour : κ → String → π → Outcome)
    (delay : Nat → Nat) (c : Channel κ) (hfree : c.mutex = false) (e : String) (x : π) :
    c.publishRun behaviour delay e x
      = concurrentLoop behaviour delay (c.Publish e x).spawned [] none := by
  obtain ⟨m, lk⟩ := c
  simp only at hfree
  subst hfree
  rfl

theorem spawned_all_returned {κ π : Type} (behaviour : κ → String → π → Outcome)
    (c : Channel κ) (hfree : c.mutex = false) (e : String) (x : π)
    (h : ∀ (p : String) (cb : κ), cb ∈ c.subs p → p.data <+: e.data →
      behaviour cb e x = Outcome.returned) :
    ∀ g ∈ (c.Publish e x).spawned, g.run behaviour = Outcome.returned := by
  intro g hg
  obtain ⟨p, hreg, hpre, he, hx⟩ := (mem_spawned_iff c hfree e x g).1 hg
  have := h p g.fn hreg hpre
  simp only [Goroutine.run, he, hx]
  exact this

/-- C9, refuted: callbacks 1 and 2 are subscribed under the empty key and callback 1
panics.  `Publish("e", 0)` starts callback 1; when it runs at once, the program ends
inside the call: callback 2, which would return, is never invoked, `Publish` does not
return, the program does not survive.  It does not survive either when callback 1
runs after `Publish` has returned.  No failure boundary stands around the invocation. -/
theorem publish_has_no_failure_boundary :
    pairChannel.mutex = false ∧ pairChannel.subs "" = [1, 2] ∧
    firstPanics 1 "e" 0 = Outcome.panicked ∧ firstPanics 2 "e" 0 = Outcome.returned ∧
    (pairChannel.publishRun firstPanics (fun _ => 0) "e" 0).started
      = [(⟨1, "e", 0⟩ : Goroutine Nat Nat)] ∧
    (⟨2, "e", 0⟩ : Goroutine Nat Nat)
      ∉ (pairChannel.publishRun firstPanics (fun _ => 0) "e" 0).started ∧
    (pairChannel.publishRun firstPanics (fun _ => 0) "e" 0).returned = false ∧
    (pairChannel.publishRun firstPanics (fun _ => 0) "e" 0).survived = false ∧
    (pairChannel.publishRun firstPanics (fun _ => 2) "e" 0).returned = true ∧
    (pairChannel.publishRun firstPanics (fun _ => 2) "e" 0).survived = false := by
  decide

/-- C9, amended: on a channel whose mutex is free, under every schedule of the started
goroutines: when no callback registered under a matching key panics on `(e, x)`,
`Publish(e, x)` starts every matching callback, returns, and the program survives; when
some matching callback panics, the program does not survive, whatever the schedule (it
may end inside the call, before the siblings are started).  Only matching callbacks are
ever started, each with `(e, x)`, and whenever `Publish` returns every matching callback
has been started. -/
theorem publish_survives_iff_no_callback_panics {κ π : Type}
    (behaviour : κ → String → π → Outcome) (delay : Nat → Nat)
    (c : Channel κ) (hfree : c.mutex = false) (e : String) (x : π) :
    ((∀ (p : String) (cb : κ), cb ∈ c.subs p → p.data <+: e.data →
        behaviour cb e x = Outcome.returned) →
      (c.publishRun behaviour delay e x).returned = true ∧
      (c.publishRun behaviour delay e x).survived = true ∧
      ∀ (p : String) (cb : κ), cb ∈ c.subs p → p.data <+: e.data →
        (⟨cb, e, x⟩ : Goroutine κ π) ∈ (c.publishRun behaviour delay e x).started) ∧
    ((∃ (p : String) (cb : κ), cb ∈ c.subs p ∧ p.data <+: e.data ∧
        behaviour cb e x = Outcome.panicked) →
      (c.publishRun behaviour delay e x).survived = false) ∧
    (∀ g ∈ (c.publishRun behaviour delay e x).started,
      ∃ p, g.fn ∈ c.subs p ∧ p.data <+: e.data ∧ g.eventname = e ∧ g.payload = x) ∧
    ((c.publishRun behaviour delay e x).returned = true →
      ∀ (p : String) (cb : κ), cb ∈ c.subs p → p.data <+: e.data →
        (⟨cb, e, x⟩ : Goroutine κ π) ∈ (c.publishRun behaviour delay e x).started) := by
  rw [publishRun_free behaviour delay c hfree]
  refine ⟨?_, ?_, ?_, ?_⟩
  · intro h
    rw [concurrentLoop_quiet behaviour delay _ [] (spawned_all_returned behaviour c hfree e x h)]
    refine ⟨rfl, rfl, ?_⟩
    intro p cb hreg hpre
    simp only [List.nil_append]
    exact (mem_spawned_iff c hfree e x ⟨cb, e, x⟩).2 ⟨p, hreg, hpre, rfl, rfl⟩
  · rintro ⟨p, cb, hreg, hpre, hpan⟩
    apply concurrentLoop_panics
    exact ⟨⟨cb, e, x⟩, (mem_spawned_iff c hfree e x ⟨cb, e, x⟩).2 ⟨p, hreg, hpre, rfl, rfl⟩, hpan⟩
  · intro g hg
    obtain ⟨n, hn⟩ := concurrentLoop_started behaviour delay (c.Publish e x).spawned [] none
    rw [hn, List.nil_append] at hg
    exact (mem_spawned_iff c hfree e x g).1 (List.mem_of_mem_take hg)
  · intro hret p cb hreg hpre
    rw [concurrentLoop_returned behaviour delay _ [] none hret, List.nil_append]
    exact (mem_spawned_iff c hfree e x ⟨cb, e, x⟩).2 ⟨p, hreg, hpre, rfl, rfl⟩

/-- C9, amended, on the routing example: when every callback returns,
`Publish("order.created", 0)` returns and the program survives; when callback 1,
subscribed under "order", panics, the program does not survive. -/
theorem publish_survives_iff_no_callback_panics_witness :
    (orderChannel 1 2).mutex = false ∧
    ((orderChannel 1 2).publishRun (fun _ _ _ => Outcome.returned) (fun _ => 0)
        "order.created" 0).returned = true ∧
    (∃ (p : String) (cb : Nat), cb ∈ (orderChannel 1 2).subs p ∧
        p.data <+: "order.created".data ∧ firstPanics cb "order.created" 0 = Outcome.panicked) ∧
    ((orderChannel 1 2).publishRun firstPanics (fun _ => 0) "order.created" 0).survived
      = false :=
  ⟨rfl,
   ((publish_survives_iff_no_callback_panics (fun _ _ _ => Outcome.returned) (fun _ => 0)
      (orderChannel 1 2) rfl "order.created" 0).1 (fun _ _ _ _ => rfl)).1,
   ⟨"order", 1, by decide, by decide, by decide⟩,
   (publish_survives_iff_no_callback_panics firstPanics (fun _ => 0)
      (orderChannel 1 2) rfl "order.created" 0).2.1
      ⟨"order", 1, by decide, by decide, by decide⟩⟩

/-- C11, refuted: the channel `CreateChannel("getaround")` returns at program start,
with callback 1 subscribed under the empty key and callback 1 panicking:
`Publish("job.done", 0)` does not complete when the callback runs at once; the program
ends inside the call. -/
theorem created_channel_publish_can_fail :
    (CreateChannel (World.initial Nat) "getaround").channel = some 0 ∧
    (CreateChannel (World.initial Nat) "getaround").world.deref 0
      = some (Channel.zero Nat).Init ∧
    (((Channel.zero Nat).Init.run [(Call.subscribe "" 1 : Call Nat Nat)]).publishRun
        firstPanics (fun _ => 0) "job.done" 0).returned = false ∧
    (((Channel.zero Nat).Init.run [(Call.subscribe "" 1 : Call Nat Nat)]).publishRun
        firstPanics (fun _ => 0) "job.done" 0).survived = false :=
  ⟨by decide, rfl, by decide, by decide⟩

/-- C11, amended: the channel behind the pointer a successful `CreateChannel` returns
has no closed or disabled state: after any run of `Subscribe` and `Publish` calls on it
the channel is initialised and its mutex free, `Subscribe(p, cb)` returns for every key
and callback, and `Publish(e, x)` returns, with the program surviving, for every event
name and payload and under every schedule, provided no callback registered under a
matching key panics on `(e, x)`. -/
theorem created_channel_calls_return_unless_callback_panics {κ π : Type} (w : World κ)
    (name : String) (a : Addr) (hok : (CreateChannel w name).channel = some a) :
    ∃ ch : Channel κ, (CreateChannel w name).world.deref a = some ch ∧
      ∀ calls : List (Call κ π),
        (ch.run calls).subscribers.isSome = true ∧
        (ch.run calls).mutex = false ∧
        (∀ (p : String) (cb : κ), ((ch.run calls).Subscribe p cb).exit = Exit.returned) ∧
        (∀ (behaviour : κ → String → π → Outcome) (delay : Nat → Nat) (e : String) (x : π),
          (∀ (p : String) (cb : κ), cb ∈ (ch.run calls).subs p → p.data <+: e.data →
            behaviour cb e x = Outcome.returned) →
          ((ch.run calls).publishRun behaviour delay e x).returned = true ∧
          ((ch.run calls).publishRun behaviour delay e x).survived = true) := by
  refine ⟨(Channel.zero κ).Init, deref_created w name a hok, ?_⟩
  intro calls
  have hlive := run_live calls (Channel.zero κ).Init rfl rfl
  refine ⟨hlive.1, hlive.2, ?_, ?_⟩
  · intro p cb
    exact (step_live (π := π) _ hlive.1 hlive.2 (Call.subscribe p cb)).1
  · intro behaviour delay e x h
    rw [publishRun_free behaviour delay _ hlive.2,
      concurrentLoop_quiet behaviour delay _ []
        (spawned_all_returned behaviour _ hlive.2 e x h)]
    exact ⟨rfl, rfl⟩

/-- C11, amended, on the channel `CreateChannel("getaround")` returns at program
start: after two subscriptions and a publication, with callbacks that return, a
further `Publish` returns and the program survives. -/
theorem created_channel_calls_return_unless_callback_panics_witness :
    (CreateChannel (World.initial Nat) "getaround").channel = some 0 ∧
    (∃ ch : Channel Nat,
      (CreateChannel (World.initial Nat) "getaround").world.deref 0 = some ch ∧
      ∀ calls : List (Call Nat Nat),
        (ch.run calls).subscribers.isSome = true ∧
        (ch.run calls).mutex = false ∧
        (∀ (p : String) (cb : Nat), ((ch.run calls).Subscribe p cb).exit = Exit.returned) ∧
        (∀ (behaviour : Nat → String → Nat → Outcome) (delay : Nat → Nat) (e : String)
            (x : Nat),
          (∀ (p : String) (cb : Nat), cb ∈ (ch.run calls).subs p → p.data <+: e.data →
            behaviour cb e x = Outcome.returned) →
          ((ch.run calls).publishRun behaviour delay e x).returned = true ∧
          ((ch.run calls).publishRun behaviour delay e x).survived = true)) ∧
    ((((Channel.zero Nat).Init).run
        [Call.subscribe "" 9, Call.subscribe "job" 4,
          (Call.publish "job.done" 1 : Call Nat Nat)]).publishRun
      (fun _ _ _ => Outcome.returned) (fun _ => 0) "job.failed" 2).returned = true :=
  ⟨by decide,
   created_channel_calls_return_unless_callback_panics (World.initial Nat) "getaround" 0
     (by decide),
   by decide⟩

end Dispatcher

namespace Tools

/-! ## Library functions on the strings of amounts -/

theorem replaceScan_single (d : Char) (s : List Char) :
    replaceScan [d] 0 s = s.filter (fun c => decide (c ≠ d)) := by
  induction s with
  | nil => rfl
  | cons c rest ih =>
    by_cases h : d = c
    · subst h
      simp [replaceScan, List.isPrefixOf, ih]
    · have h' : ¬ c = d := fun e => h e.symm
      simp [replaceScan, List.isPrefixOf, ih, h, h']

/-- Removing a one-byte separator drops exactly the bytes equal to it. -/
theorem ReplaceAll_single (d : Char) (s : List Char) :
    ReplaceAll s [d] = s.filter (fun c => decide (c ≠ d)) := by
  simp [ReplaceAll, replaceScan_single]

theorem filter_ne_of_not_mem (d : Char) (s : List Char) (h : d ∉ s) :
    s.filter (fun c => decide (c ≠ d)) = s := by
  rw [List.filter_eq_self]
  intro c hc
  simp only [ne_eq, decide_eq_true_eq]
  rintro rfl
  exact h hc

theorem lastIndexFrom_absent (d : Char) (s : List Char) (h : d ∉ s) (i : Nat) (best : Int) :
    lastIndexFrom [d] s i best = best := by
  induction s generalizing i best with
  | nil => simp [lastIndexFrom, List.isPrefixOf]
  | cons c rest ih =>
    have hc : ¬ d = c := fun e => h (by simp [e])
    have hrest : d ∉ rest := fun e => h (by simp [e])
    simp [lastIndexFrom, List.isPrefixOf, hc, ih hrest]

theorem lastIndexFrom_last (d : Char) (pre post : List Char) (hpost : d ∉ post) (i : Nat)
    (best : Int) :
    lastIndexFrom [d] (pre ++ d :: post) i best = ((i + pre.length : Nat) : Int) := by
  induction pre generalizing i best with
  | nil => simp [lastIndexFrom, List.isPrefixOf, lastIndexFrom_absent d post hpost]
  | cons c rest ih =>
    have hstep : lastIndexFrom [d] (c :: rest ++ d :: post) i best
        = lastIndexFrom [d] (rest ++ d :: post) (i + 1)
            (if [d].isPrefixOf (c :: (rest ++ d :: post)) then (i : Int) else best) := rfl
    rw [hstep, ih, List.length_cons]
    congr 1
    omega

/-- `LastIndex` of a separator that does not occur is `-1`. -/
theorem LastIndex_absent (d : Char) (s : List Char) (h : d ∉ s) : LastIndex s [d] = -1 :=
  lastIndexFrom_absent d s h 0 (-1)

/-- `LastIndex` of a one-byte separator is the length of what stands before its last
occurrence. -/
theorem LastIndex_last (d : Char) (pre post : List Char) (hpost : d ∉ post) :
    LastIndex (pre ++ d :: post) [d] = (pre.length : Int) := by
  unfold LastIndex
  rw [lastIndexFrom_last d pre post hpost]
  simp

theorem lastIndexFrom_empty (s : List Char) (i : Nat) (best : Int) :
    lastIndexFrom [] s i best = ((i + s.length : Nat) : Int) := by
  induction s generalizing i best with
  | nil => simp [lastIndexFrom, List.isPrefixOf]
  | cons c rest ih =>
    simp only [lastIndexFrom, List.length_cons]
    rw [ih]
    congr 1
    omega

/-- `LastIndex` of the empty string is the length of the string. -/
theorem LastIndex_empty (s : List Char) : LastIndex s [] = (s.length : Int) := by
  unfold LastIndex
  rw [lastIndexFrom_empty]
  simp

/-! ## Parsing digit strings -/

theorem digitsValFrom_cons (n : Nat) (c : Char) (rest : List Char) :
    digitsValFrom n (c :: rest) = digitsValFrom (n * 10 + digitOf c) rest := rfl

theorem le_digitsValFrom (ds : List Char) (n : Nat) : n ≤ digitsValFrom n ds := by
  induction ds generalizing n with
  | nil => exact Nat.le_refl n
  | cons c rest ih =>
    rw [digitsValFrom_cons]
    have := ih (n * 10 + digitOf c)
    omega

theorem digitsValFrom_eq (ds : List Char) (n : Nat) :
    digitsValFrom n ds = n * 10 ^ ds.length + digitsVal ds := by
  induction ds generalizing n with
  | nil => simp [digitsVal, digitsValFrom]
  | cons c rest ih =>
    unfold digitsVal
    rw [digitsValFrom_cons, digitsValFrom_cons, ih, ih (0 * 10 + digitOf c), List.length_cons,
      Nat.pow_succ]
    ring

theorem digitsVal_append (a b : List Char) :
    digitsVal (a ++ b) = digitsVal a * 10 ^ b.length + digitsVal b := by
  have h : digitsVal (a ++ b) = digitsValFrom (digitsVal a) b := by
    simp [digitsVal, digitsValFrom, List.foldl_append]
  rw [h, digitsValFrom_eq]

/-- On a string of digits whose number fits `uint64` the loop of `ParseUint` reads
that number and reports no error. -/
theorem parseUintLoop_digits (ds : List Char) (n : Nat)
    (hds : ∀ c ∈ ds, isDigit c = true) (hfit : digitsValFrom n ds ≤ maxUint64) :
    parseUintLoop ds n = (digitsValFrom n ds, none) := by
  induction ds generalizing n with
  | nil => rfl
  | cons c rest ih =>
    have hc : isDigit c = true := hds c (by simp)
    have hrest : ∀ c' ∈ rest, isDigit c' = true := fun c' h => hds c' (by simp [h])
    rw [digitsValFrom_cons] at hfit
    have hle := le_digitsValFrom rest (n * 10 + digitOf c)
    have hmax : maxUint64 = 18446744073709551615 := by decide
    have h1 : ¬ (n ≥ maxUint64 / 10 + 1) := by
      rw [hmax] at hfit ⊢
      omega
    have h2 : ¬ (n * 10 + digitOf c > maxUint64) := by omega
    rw [digitsValFrom_cons, ← ih (n * 10 + digitOf c) hrest hfit]
    simp [parseUintLoop, hc, h1, h2]

theorem ParseUint_digits (ds : List Char) (hne : ds ≠ [])
    (hds : ∀ c ∈ ds, isDigit c = true) (hfit : digitsVal ds ≤ maxUint64) :
    ParseUint ds = (digitsVal ds, none) := by
  unfold ParseUint
  rw [if_neg hne]
  exact parseUintLoop_digits ds 0 hds hfit

theorem isDigit_ne_minus (c : Char) (h : isDigit c = true) : c ≠ '-' := by
  rintro rfl
  revert h
  decide

theorem isDigit_ne_plus (c : Char) (h : isDigit c = true) : c ≠ '+' := by
  rintro rfl
  revert h
  decide

/-- On an optional `-` followed by a non-empty string of digits whose signed number
fits `int64`, `ParseInt` returns that number and no error. -/
theorem ParseInt_digits (neg : Bool) (ds : List Char) (hne : ds ≠ [])
    (hds : ∀ c ∈ ds, isDigit c = true)
    (hfit : if neg then digitsVal ds ≤ 2 ^ 63 else digitsVal ds < 2 ^ 63) :
    ParseInt (signOf neg ++ ds)
      = ((if neg then -1 else 1) * (digitsVal ds : Int), none) := by
  have hmax : maxUint64 = 18446744073709551615 := by decide
  have hpow : (2 : Nat) ^ 63 = 9223372036854775808 := by norm_num
  cases neg with
  | true =>
    simp only [if_true] at hfit
    have hu := ParseUint_digits ds hne hds (by rw [hmax]; omega)
    have hgt : ¬ (digitsVal ds > 2 ^ 63) := by omega
    simp [ParseInt, signOf, hu, hgt]
    omega
  | false =>
    simp only [Bool.false_eq_true, if_false] at hfit
    have hu := ParseUint_digits ds hne hds (by rw [hmax]; omega)
    obtain ⟨c, rest, rfl⟩ := List.exists_cons_of_ne_nil hne
    have hc : isDigit c = true := hds c (by simp)
    have hm := isDigit_ne_minus c hc
    have hp := isDigit_ne_plus c hc
    have hge : ¬ (digitsVal (c :: rest) ≥ 2 ^ 63) := by omega
    simp [ParseInt, signOf, hu, hm, hp, hge]
    omega

/-! ## ConvertStringToAmount -/

/-- Without the decimal separator in the cleaned input the function parses the
cleaned input followed by "00". -/
theorem convert_without_separator (s t : String) (d : Char)
    (hd : d ∉ cleaned s t) :
    ConvertStringToAmount s ⟨[d]⟩ t
      = Outcome.returns (ParseInt (cleaned s t ++ ['0', '0'])) := by
  have hidx := LastIndex_absent d (cleaned s t) hd
  unfold cleaned at hidx ⊢
  unfold ConvertStringToAmount
  simp only [hidx]
  simp

theorem filter_around (d : Char) (pre F : List Char) (hpre : d ∉ pre) (hF : d ∉ F) :
    (pre ++ d :: F).filter (fun c => decide (c ≠ d)) = pre ++ F := by
  rw [List.filter_append, List.filter_cons, filter_ne_of_not_mem d pre hpre,
    filter_ne_of_not_mem d F hF]
  simp

/-- With one decimal separator in the cleaned input, between `pre` and `F`, the
function parses `pre` followed by the two cent digits of `F`. -/
theorem convert_with_separator (s t : String) (d : Char) (pre F : List Char)
    (hx : cleaned s t = pre ++ d :: F) (hpre : d ∉ pre) (hF : d ∉ F) :
    ConvertStringToAmount s ⟨[d]⟩ t
      = Outcome.returns (ParseInt (pre ++ centDigits F)) := by
  have hidx := LastIndex_last d pre F hF
  have hfil := filter_around d pre F hpre hF
  rw [← hx] at hidx
  rw [← ReplaceAll_single, ← hx] at hfil
  have hlen : ((cleaned s t).length : Int) = (pre.length : Int) + 1 + (F.length : Int) := by
    rw [hx]
    simp
    omega
  unfold cleaned at hidx hfil hlen
  unfold ConvertStringToAmount
  simp only [hidx, hfil, hlen]
  have hnn : ¬ ((pre.length : Int) = -1) := by omega
  match F, hF with
  | [], _ => simp [hnn, centDigits]
  | [a], _ =>
    have h1 : ¬ ((pre.length : Int) = (pre.length : Int) + 1 + 1 - 1) := by omega
    simp [hnn, centDigits, h1]
    intro h
    exact absurd (by omega) h
  | [a, b], _ =>
    have h1 : ¬ ((pre.length : Int) = (pre.length : Int) + 1 + 2 - 1) := by omega
    have h2 : ¬ ((pre.length : Int) = (pre.length : Int) + 1 + 2 - 2) := by omega
    simp [hnn, centDigits, h1, h2]
    intro h
    exact absurd (by omega) h
  | a :: b :: c :: rest, _ =>
    have h1 : ¬ ((pre.length : Int)
        = (pre.length : Int) + 1 + ((rest.length : Int) + 1 + 1 + 1) - 1) := by omega
    have h2 : ¬ ((pre.length : Int)
        = (pre.length : Int) + 1 + ((rest.length : Int) + 1 + 1 + 1) - 2) := by omega
    have h3 : ¬ ((pre.length : Int)
        = (pre.length : Int) + 1 + ((rest.length : Int) + 1 + 1 + 1) - 3) := by omega
    have hs : sliceTo (pre ++ a :: b :: c :: rest) ((pre.length : Int) + 2)
        = some (pre ++ [a, b]) := by
      unfold sliceTo
      have hb : 0 ≤ (pre.length : Int) + 2 ∧
          (pre.length : Int) + 2 ≤ ((pre ++ a :: b :: c :: rest).length : Int) := by
        simp
        omega
      rw [if_pos hb]
      have ht : ((pre.length : Int) + 2).toNat = pre.length + 2 := by omega
      rw [ht, List.take_append]
      simp
    simp [hnn, centDigits, h1, h2, h3, hs]

theorem not_mem_of_digits (d : Char) (hd : isDigit d = false) (ds : List Char)
    (hds : ∀ c ∈ ds, isDigit c = true) : d ∉ ds := by
  intro h
  rw [hds d h] at hd
  exact Bool.noConfusion hd

theorem not_mem_signOf (d : Char) (hminus : d ≠ '-') (neg : Bool) : d ∉ signOf neg := by
  cases neg <;> simp [signOf, hminus]

theorem centDigits_length (F : List Char) : (centDigits F).length = 2 := by
  simp [centDigits]

theorem centDigits_digits (F : List Char) (hF : ∀ c ∈ F, isDigit c = true) :
    ∀ c ∈ centDigits F, isDigit c = true := by
  intro c hc
  have hmem := List.mem_of_mem_take hc
  rcases List.mem_append.1 hmem with h | h
  · exact hF c h
  · have h0 : c = '0' := by simpa using h
    rw [h0]
    decide

/-- C12: for a one-byte decimal separator `d` that is neither a digit nor `-`, any
thousand separator and every input whose cleaned form (spaces removed, then the
thousand separator) is `[-]I` or `[-]I d F`, with `I` a non-empty digit string, `F` a
digit string and the amount within `int64`, `ConvertStringToAmount` returns no error
and the amount in cents `sign * (100 * I + the first two digits of F padded on the right
with zeros)`: further decimals are cut, not rounded.  With `d = ","`:
" - 1234,43 " gives -123443, "0" gives 0, "345 " gives 34500, "- 0,00" gives 0. -/
theorem convert_amount_in_cents (s thousandSep : String) (d : Char) (neg : Bool)
    (I F : List Char) (hd : isDigit d = false) (hminus : d ≠ '-')
    (hI : I ≠ []) (hId : ∀ c ∈ I, isDigit c = true) (hFd : ∀ c ∈ F, isDigit c = true)
    (hform : (cleaned s thousandSep = signOf neg ++ I ∧ F = []) ∨
      cleaned s thousandSep = signOf neg ++ I ++ d :: F)
    (hfit : -(2 : Int) ^ 63 ≤ amountOf neg I F ∧ amountOf neg I F ≤ (2 : Int) ^ 63 - 1) :
    ConvertStringToAmount s ⟨[d]⟩ thousandSep = Outcome.returns (amountOf neg I F, none) ∧
    ConvertStringToAmount " - 1234,43 " "," "" = Outcome.returns (-123443, none) ∧
    ConvertStringToAmount "0" "," "" = Outcome.returns (0, none) ∧
    ConvertStringToAmount "345 " "," "" = Outcome.returns (34500, none) ∧
    ConvertStringToAmount "- 0,00" "," "" = Outcome.returns (0, none) := by
  refine ⟨?_, by decide, by decide, by decide, by decide⟩
  have hdI := not_mem_of_digits d hd I hId
  have hdF := not_mem_of_digits d hd F hFd
  have hdS := not_mem_signOf d hminus neg
  have hpre : d ∉ signOf neg ++ I := by
    intro h
    rcases List.mem_append.1 h with h | h
    · exact hdS h
    · exact hdI h
  have hbody : (I ++ centDigits F) ≠ [] := by
    intro h
    exact hI (List.append_eq_nil.1 h).1
  have hdigits : ∀ c ∈ I ++ centDigits F, isDigit c = true := by
    intro c hc
    rcases List.mem_append.1 hc with h | h
    · exact hId c h
    · exact centDigits_digits F hFd c h
  have hval : digitsVal (I ++ centDigits F) = 100 * digitsVal I + digitsVal (centDigits F) := by
    rw [digitsVal_append, centDigits_length]
    ring
  have hamount : amountOf neg I F
      = (if neg then -1 else 1) * (digitsVal (I ++ centDigits F) : Int) := by
    rw [hval]
    rfl
  have hpow : (2 : Int) ^ 63 = 9223372036854775808 := by norm_num
  have hpowN : (2 : Nat) ^ 63 = 9223372036854775808 := by norm_num
  have hbound : if neg then digitsVal (I ++ centDigits F) ≤ 2 ^ 63
      else digitsVal (I ++ centDigits F) < 2 ^ 63 := by
    rw [hamount, hpow] at hfit
    rw [hpowN]
    cases neg with
    | true =>
      simp only [if_true] at hfit ⊢
      omega
    | false =>
      simp only [Bool.false_eq_true, if_false] at hfit ⊢
      omega
  have hparse := ParseInt_digits neg (I ++ centDigits F) hbody hdigits hbound
  rw [← hamount, ← List.append_assoc] at hparse
  rcases hform with ⟨hx, hF⟩ | hx
  · subst hF
    rw [convert_without_separator s thousandSep d (by rw [hx]; exact hpre), hx]
    exact congrArg Outcome.returns hparse
  · rw [convert_with_separator s thousandSep d (signOf neg ++ I) F hx hpre hdF]
    exact congrArg Outcome.returns hparse

/-- C12 on the input "1.234,5678 " with separators "," and ".": the cleaned form is
"1234,5678", the amount 123456 cents. -/
theorem convert_amount_in_cents_witness :
    isDigit ',' = false ∧ ',' ≠ '-' ∧
    cleaned "1.234,5678 " "." = signOf false ++ ['1', '2', '3', '4'] ++ ',' :: ['5', '6', '7', '8'] ∧
    amountOf false ['1', '2', '3', '4'] ['5', '6', '7', '8'] = 123456 ∧
    ConvertStringToAmount "1.234,5678 " ⟨[',']⟩ "."
      = Outcome.returns (amountOf false ['1', '2', '3', '4'] ['5', '6', '7', '8'], none) :=
  ⟨by decide, by decide, by decide, by decide,
   (convert_amount_in_cents "1.234,5678 " "." ',' false ['1', '2', '3', '4']
      ['5', '6', '7', '8'] (by decide) (by decide) (by decide) (by decide) (by decide)
      (Or.inr (by decide)) (by decide)).1⟩

/-- C13, refuted: with decimal separator "," and no thousand separator the function
returns neither 3451 for " 345,1" nor 3450 for "345,". -/
theorem convert_doc_examples_fail :
    ConvertStringToAmount " 345,1" "," "" ≠ Outcome.returns (3451, none) ∧
    ConvertStringToAmount "345," "," "" ≠ Outcome.returns (3450, none) := by
  decide

/-- C13, amended: with decimal separator "," and no thousand separator the function
returns 34510 for " 345,1" (one digit after the separator, padded to cents by the
branch `l - 2`) and 34500 for "345," (separator as last byte, branch `l - 1`), both
without error. -/
theorem convert_doc_examples_in_cents :
    ConvertStringToAmount " 345,1" "," "" = Outcome.returns (34510, none) ∧
    ConvertStringToAmount "345," "," "" = Outcome.returns (34500, none) := by
  constructor
  · decide
  · decide

theorem sliceTo_beyond (x : List Char) : sliceTo x ((x.length : Int) + 2) = none := by
  unfold sliceTo
  rw [if_neg]
  intro h
  omega

/-- C15: with an empty decimal separator `ConvertStringToAmount` returns nothing,
whatever the input and the thousand separator: `LastIndex` gives the length `l` of the
cleaned input, `ReplaceAll` leaves that input as it is, no case of the switch applies
(`l` is not `-1`, `l - 1`, `l - 2` or `l - 3`) and the default branch takes the slice
`s[0 : l+2]` of a string of length `l`, which panics. -/
theorem convert_empty_separator_panics (s thousandSep : String) :
    ConvertStringToAmount s "" thousandSep = Outcome.panics "slice bounds out of range" ∧
    LastIndex (cleaned s thousandSep) "".data = ((cleaned s thousandSep).length : Int) ∧
    ReplaceAll (cleaned s thousandSep) "".data = cleaned s thousandSep ∧
    sliceTo (cleaned s thousandSep) (((cleaned s thousandSep).length : Int) + 2) = none := by
  have hidx := LastIndex_empty (cleaned s thousandSep)
  have hrep : ReplaceAll (cleaned s thousandSep) [] = cleaned s thousandSep := by
    simp [ReplaceAll]
  have hcut := sliceTo_beyond (cleaned s thousandSep)
  refine ⟨?_, hidx, hrep, hcut⟩
  have h0 : ¬ (((cleaned s thousandSep).length : Int) = -1) := by omega
  have h1 : ¬ (((cleaned s thousandSep).length : Int)
      = ((cleaned s thousandSep).length : Int) - 1) := by omega
  have h2 : ¬ (((cleaned s thousandSep).length : Int)
      = ((cleaned s thousandSep).length : Int) - 2) := by omega
  have h3 : ¬ (((cleaned s thousandSep).length : Int)
      = ((cleaned s thousandSep).length : Int) - 3) := by omega
  unfold cleaned at hidx hrep hcut h0 h1 h2 h3
  unfold ConvertStringToAmount
  simp only [show "".data = ([] : List Char) from rfl, hidx, hrep, hcut, h0, h1, h2, h3,
    if_false, ne_eq, not_false_eq_true, if_true]

end Tools
